import Mathlib

/-!
Verification of the Discovery & Adaptive Extraction Pipeline of the
`sponge` repository (backend/apps/crawler and backend/apps/extractor).

Python strings are modelled as `List Char`; machine integers (HTTP status
codes, depths, caps) fit in `Nat`.  Every stateful Python function is
translated into a pure Lean function; network and HTML-parsing effects
(httpx, Playwright, BeautifulSoup, html2text) are passed in as explicit
oracle functions, so that each translated function is exactly the source
control flow over those oracles.
-/

namespace Sponge

/-! ## Generic character/string helpers (CPython semantics) -/

/-- Python ASCII whitespace as used by `str.strip` and the `\s` regex
class on ASCII input: space, tab, newline, carriage return, vertical tab,
form feed. -/
def isPySpace (c : Char) : Bool :=
  c = ' ' || c = '\t' || c = '\n' || c = '\r' || c = '\x0b' || c = '\x0c'

/-- Python `str.strip()` on a character list. -/
def pyStrip (cs : List Char) : List Char :=
  ((cs.dropWhile isPySpace).reverse.dropWhile isPySpace).reverse

/-- Python `str.rstrip(chars)` for a single strip character. -/
def pyRstripChar (ch : Char) (cs : List Char) : List Char :=
  (cs.reverse.dropWhile (fun c => c = ch)).reverse

/-- Python `str.lower()` restricted to ASCII (all repository string
constants are ASCII). -/
def pyLower (cs : List Char) : List Char := cs.map Char.toLower

/-- Python substring test `needle in hay`. -/
def containsSub (hay needle : List Char) : Bool :=
  needle.isPrefixOf hay ||
    match hay with
    | [] => false
    | _ :: t => containsSub t needle

/-- Python `str.split(sep)` for a one-character separator (keeps empty
pieces, including a trailing one). -/
def pySplitChar (sep : Char) : List Char → List (List Char)
  | [] => [[]]
  | c :: rest =>
    if c = sep then [] :: pySplitChar sep rest
    else
      match pySplitChar sep rest with
      | [] => [[c]]
      | h :: t => (c :: h) :: t

/-- `"\n".join` / `str.join` for a one-character separator. -/
def joinChar (sep : Char) : List (List Char) → List Char
  | [] => []
  | [l] => l
  | l :: rest => l ++ sep :: joinChar sep rest

/-! ## UrlNormalizer: CPython `urllib.parse.urlparse` and
`LinkCrawler._normalize_url` (src/backend/apps/crawler/link_crawler.py,
lines 198-205).

The `urlparse` model follows CPython 3.11 `urllib.parse.urlsplit` /
`urlparse` line by line: WHATWG sanitization (lstrip of C0-control/space,
removal of tab/CR/LF), scheme split at the first `:` when the prefix is a
valid scheme, netloc up to the first of `/?#` after `//`, fragment at the
first `#`, query at the first `?`, and params after a `;` in the last
path segment.  The `ValueError` branches for malformed IPv6 brackets and
non-ASCII netlocs are not modelled (they raise instead of returning). -/

/-- WHATWG C0-control-or-space class (code points 0x00..0x20). -/
def isC0OrSpace (c : Char) : Bool := c.val ≤ 0x20

/-- CPython `_UNSAFE_URL_BYTES_TO_REMOVE`: tab, carriage return, newline. -/
def isUnsafeUrlByte (c : Char) : Bool := c = '\t' || c = '\r' || c = '\n'

/-- The sanitization CPython `urlsplit` applies to its input: lstrip of
C0-control/space, then removal of every tab/CR/LF. -/
def sanitizeUrl (cs : List Char) : List Char :=
  (cs.dropWhile isC0OrSpace).filter (fun c => !isUnsafeUrlByte c)

/-- CPython `scheme_chars`: ASCII letters, digits, `+`, `-`, `.`. -/
def isSchemeChar (c : Char) : Bool :=
  c.isAlpha || c.isDigit || c = '+' || c = '-' || c = '.'

/-- Scheme extraction of `urlsplit`: the text before the first `:` must be
nonempty, start with an ASCII letter and consist of scheme characters;
the scheme is lowercased.  Returns `(scheme, rest)`. -/
def splitScheme (cs : List Char) : List Char × List Char :=
  let pre := cs.takeWhile isSchemeChar
  let rest := cs.dropWhile isSchemeChar
  match pre, rest with
  | c :: _, ':' :: r => if c.isAlpha then (pre.map Char.toLower, r) else ([], cs)
  | _, _ => ([], cs)

/-- A character that does not end the netloc (`_splitnetloc` stops at the
first of `/`, `?`, `#`). -/
def notNetlocDelim (c : Char) : Bool := !(c = '/' || c = '?' || c = '#')

/-- Result of CPython `urlparse` (the six components). -/
structure UrlParseResult where
  scheme : List Char
  netloc : List Char
  path : List Char
  params : List Char
  query : List Char
  fragment : List Char
  deriving DecidableEq, Repr

/-- CPython `urlsplit` (params left empty, as in the Python tuple before
`_splitparams`). -/
def urlsplit (cs : List Char) : UrlParseResult :=
  let url0 := sanitizeUrl cs
  let sp := splitScheme url0
  let url1 := sp.2
  let nl : List Char × List Char :=
    if url1.take 2 = ['/', '/'] then
      ((url1.drop 2).takeWhile notNetlocDelim, (url1.drop 2).dropWhile notNetlocDelim)
    else ([], url1)
  let fr : List Char × List Char :=
    if nl.2.contains '#' then
      (nl.2.takeWhile (fun c => c ≠ '#'), (nl.2.dropWhile (fun c => c ≠ '#')).drop 1)
    else (nl.2, [])
  let pq : List Char × List Char :=
    if fr.1.contains '?' then
      (fr.1.takeWhile (fun c => c ≠ '?'), (fr.1.dropWhile (fun c => c ≠ '?')).drop 1)
    else (fr.1, [])
  ⟨sp.1, nl.1, pq.1, [], pq.2, fr.2⟩

/-- CPython `_splitparams`: split the path at the first `;` occurring in
its last `/`-segment (or anywhere when there is no `/`). -/
def splitparams (url : List Char) : List Char × List Char :=
  if url.contains '/' then
    -- `i = url.find(';', url.rfind('/'))`: the first ';' at or after the
    -- last '/', i.e. the first ';' of the last segment.
    let afterLastSlash := (url.reverse.takeWhile (fun c => c ≠ '/')).reverse
    if afterLastSlash.contains ';' then
      let keep := afterLastSlash.takeWhile (fun c => c ≠ ';')
      let params := (afterLastSlash.dropWhile (fun c => c ≠ ';')).drop 1
      (url.take (url.length - afterLastSlash.length) ++ keep, params)
    else (url, [])
  else
    (url.takeWhile (fun c => c ≠ ';'), (url.dropWhile (fun c => c ≠ ';')).drop 1)

/-- CPython `urlparse`: `urlsplit` plus params splitting when the path
contains a `;`. -/
def urlparse (cs : List Char) : UrlParseResult :=
  let r := urlsplit cs
  if r.path.contains ';' then
    { r with path := (splitparams r.path).1, params := (splitparams r.path).2 }
  else r

/-- Python `path.rstrip("/")`. -/
def rstripSlashes (cs : List Char) : List Char :=
  (cs.reverse.dropWhile (fun c => c = '/')).reverse

/-- `LinkCrawler._normalize_url`: strip fragment and trailing slashes for
deduplication; `path.rstrip("/") or "/"`; the query is appended back iff
nonempty. -/
def normalize_url (url : List Char) : List Char :=
  let parsed := urlparse url
  let path := if rstripSlashes parsed.path = [] then ['/'] else rstripSlashes parsed.path
  let normalized := parsed.scheme ++ ':' :: '/' :: '/' :: parsed.netloc ++ path
  if parsed.query ≠ [] then normalized ++ '?' :: parsed.query else normalized

/-! ## LinkCrawler (src/backend/apps/crawler/link_crawler.py)

`_extract_links` performs network fetches (HTTP with Playwright fallback)
and BeautifulSoup link parsing; it is abstracted as an oracle
`extractLinks : url -> list of child urls`.  The BFS loop `crawl` is
translated statement by statement; since the Python `while` loop has no
syntactic termination measure, the Lean loop takes a fuel argument and
returns the state reached when fuel runs out (all verified properties are
safety invariants that hold for every fuel). -/

/-- `DiscoveredPage` (src/backend/apps/core/models.py). -/
structure DiscoveredPage where
  url : List Char
  source : List Char
  depth : Nat
  deriving DecidableEq, Repr

/-- The `CrawlConfig` fields used by `LinkCrawler` (`crawl_delay_ms` only
feeds `asyncio.sleep` and has no effect on the result). -/
structure CrawlConfig where
  max_urls : Nat
  max_depth : Nat
  deriving Repr

/-- `_strip_www`: drop a leading `www.`. -/
def strip_www (domain : List Char) : List Char :=
  if ("www.".data).isPrefixOf domain then domain.drop 4 else domain

/-- `_same_site`: www-agnostic domain equality. -/
def same_site (netloc base_domain : List Char) : Bool :=
  strip_www netloc = strip_www base_domain

/-- The alternatives of the `SKIP_EXTENSIONS` regex, with the leading dot. -/
def SKIP_EXTENSION_LIST : List (List Char) :=
  [".jpg".data, ".jpeg".data, ".png".data, ".gif".data, ".svg".data,
   ".webp".data, ".ico".data, ".pdf".data, ".zip".data, ".tar".data,
   ".gz".data, ".mp3".data, ".mp4".data, ".avi".data, ".mov".data,
   ".woff".data, ".woff2".data, ".ttf".data, ".eot".data, ".css".data,
   ".js".data, ".xml".data, ".rss".data, ".atom".data]

/-- `SKIP_EXTENSIONS.search(path)`: the path ends with a dot followed by
one of the extensions, case-insensitively (the regex is anchored with `$`;
the `$`-before-final-newline corner is unreachable because `urlparse`
removes newlines). -/
def skip_extensions_search (path : List Char) : Bool :=
  SKIP_EXTENSION_LIST.any (fun ext => ext.isSuffixOf (pyLower path))

/-- The alternatives of the `SKIP_PATH_PATTERNS` regex. -/
def SKIP_PATH_TOKEN_LIST : List (List Char) :=
  ["login".data, "signin".data, "signup".data, "register".data,
   "logout".data, "admin".data, "cart".data, "checkout".data,
   "account".data, "password".data, "oauth".data]

/-- `SKIP_PATH_PATTERNS.search(path)`: case-insensitive substring test. -/
def skip_path_patterns_search (path : List Char) : Bool :=
  SKIP_PATH_TOKEN_LIST.any (fun tok => containsSub (pyLower path) tok)

/-- `LinkCrawler._should_skip`. -/
def should_skip (url base_domain : List Char) (disallowed : List (List Char)) : Bool :=
  let parsed := urlparse url
  if !same_site parsed.netloc base_domain then true
  else if skip_extensions_search parsed.path then true
  else if skip_path_patterns_search parsed.path then true
  else disallowed.any (fun p => p.isPrefixOf parsed.path)

/-- The observable state of `LinkCrawler.crawl`: the discovered pages, the
`visited` set as its insertion-ordered log, and an instrumentation log of
the `(url, depth)` pairs on which `_extract_links` was invoked. -/
structure CrawlResult where
  discovered : List DiscoveredPage
  visited : List (List Char)
  expanded : List (List Char × Nat)
  deriving Repr

/-- The body of the `while` loop of `LinkCrawler.crawl`, one iteration per
unit of fuel. -/
def crawlLoop (cfg : CrawlConfig) (extractLinks : List Char → List (List Char))
    (base_domain : List Char) (disallowed : List (List Char)) :
    Nat → List (List Char × Nat) → List (List Char) → List DiscoveredPage →
    List (List Char × Nat) → CrawlResult
  | 0, _, visited, discovered, expanded => ⟨discovered, visited, expanded⟩
  | _ + 1, [], visited, discovered, expanded => ⟨discovered, visited, expanded⟩
  | fuel + 1, (url, depth) :: rest, visited, discovered, expanded =>
    if cfg.max_urls ≤ discovered.length then ⟨discovered, visited, expanded⟩
    else
      let normalized := normalize_url url
      if visited.contains normalized then
        crawlLoop cfg extractLinks base_domain disallowed fuel rest visited discovered expanded
      else
        let visited' := visited ++ [normalized]
        if should_skip normalized base_domain disallowed then
          crawlLoop cfg extractLinks base_domain disallowed fuel rest visited' discovered expanded
        else
          let discovered' := discovered ++ [⟨normalized, "crawl".data, depth⟩]
          if depth < cfg.max_depth then
            let children := extractLinks normalized
            let queue' := rest ++
              (children.filter (fun c => !visited'.contains c)).map (fun c => (c, depth + 1))
            crawlLoop cfg extractLinks base_domain disallowed fuel queue' visited'
              discovered' (expanded ++ [(normalized, depth)])
          else
            crawlLoop cfg extractLinks base_domain disallowed fuel rest visited'
              discovered' expanded

/-- `LinkCrawler.crawl`: BFS from `start_url` (depth 0) with empty visited
set. -/
def crawl (cfg : CrawlConfig) (extractLinks : List Char → List (List Char))
    (start_url : List Char) (disallowed : List (List Char)) (fuel : Nat) : CrawlResult :=
  crawlLoop cfg extractLinks (urlparse start_url).netloc disallowed fuel
    [(start_url, 0)] [] [] []

/-! ## SitemapParser (src/backend/apps/crawler/sitemap_parser.py)

The HTTP fetch plus BeautifulSoup XML parse of one sitemap document is
abstracted as an oracle `fetch : url -> Option SitemapDoc` (`none` models
a failed fetch, `get_text_safe` returning `None`).  A `SitemapDoc` is the
relevant shape of the parsed XML: either a sitemap index (its `<sitemap>`
tags) or a urlset (its `<url>` tags).  The cache collaborator is modelled
as absent (`cache=None`), under which `_get_cached` returns `None` and
`_set_cached` is a no-op.  CPython `float()` parsing of `<priority>` is
abstracted: the model keeps the stripped numeral text, which leaves the
deduplication/cap/order behavior under verification unchanged. -/

def MAX_SITEMAP_ENTRIES : Nat := 500

def MAX_RECURSION_DEPTH : Nat := 3

/-- A `<url>` tag of a urlset: its `<loc>` text (none when the child tag
is missing) and its `<priority>` text. -/
structure UrlTag where
  loc : Option (List Char)
  priority : Option (List Char)
  deriving DecidableEq, Repr

/-- A `<sitemap>` tag of a sitemap index: its `<loc>` text. -/
structure SitemapTag where
  loc : Option (List Char)
  deriving DecidableEq, Repr

/-- The parsed shape of one fetched sitemap XML document. -/
inductive SitemapDoc where
  | index (sitemaps : List SitemapTag)
  | urlset (urls : List UrlTag)
  deriving DecidableEq, Repr

/-- `SitemapEntry` (src/backend/apps/core/models.py); `priority` keeps the
numeral text (see the section comment). -/
structure SitemapEntry where
  url : List Char
  priority : Option (List Char)
  deriving DecidableEq, Repr

/-- `SitemapResult` (src/backend/apps/core/models.py). -/
structure SitemapResult where
  entries : List SitemapEntry
  source : List Char
  deriving Repr

/-- `SitemapParser._parse_urlset`: keep `<url>` tags whose `<loc>` text is
truthy, require an `http(s)` scheme on the stripped URL, and carry the
optional priority. -/
def parse_urlset : List UrlTag → List SitemapEntry
  | [] => []
  | tag :: rest =>
    match tag.loc with
    | none => parse_urlset rest
    | some t =>
      if t = [] then parse_urlset rest
      else
        let url := pyStrip t
        if !(("http://".data).isPrefixOf url || ("https://".data).isPrefixOf url) then
          parse_urlset rest
        else
          let priority :=
            match tag.priority with
            | some p => if p = [] then none else some (pyStrip p)
            | none => none
          ⟨url, priority⟩ :: parse_urlset rest

/-- The loop of `SitemapParser._parse_index` over the `<sitemap>` tags,
parameterized by the recursive parse of a sub-sitemap (`sub`): recurse
into each truthy `<sitemap><loc>`, breaking once the running total
reaches `MAX_SITEMAP_ENTRIES`. -/
def parse_index_go (sub : List Char → List SitemapEntry) :
    List SitemapTag → List SitemapEntry → List SitemapEntry
  | [], entries => entries
  | tag :: rest, entries =>
    match tag.loc with
    | none => parse_index_go sub rest entries
    | some t =>
      if t = [] then parse_index_go sub rest entries
      else
        let entries' := entries ++ sub (pyStrip t)
        if MAX_SITEMAP_ENTRIES ≤ entries'.length then entries'
        else parse_index_go sub rest entries'

/-- `SitemapParser._parse_sitemap` with `fuel = MAX_RECURSION_DEPTH - depth`:
`fuel = 0` is exactly the `depth >= MAX_RECURSION_DEPTH` guard, and the
recursive call at `depth + 1` runs at `fuel - 1`. -/
def parse_sitemap_fuel (fetch : List Char → Option SitemapDoc) :
    Nat → List Char → List SitemapEntry
  | 0, _ => []
  | fuel + 1, url =>
    match fetch url with
    | none => []
    | some (.index tags) => parse_index_go (fun u => parse_sitemap_fuel fetch fuel u) tags []
    | some (.urlset urls) => parse_urlset urls

/-- `SitemapParser._parse_sitemap` in terms of `depth`. -/
def parse_sitemap (fetch : List Char → Option SitemapDoc) (url : List Char)
    (depth : Nat) : List SitemapEntry :=
  parse_sitemap_fuel fetch (MAX_RECURSION_DEPTH - depth) url

/-- The Python dict comprehension `{e.url: e for e in all_entries}` turned
into `list(....values())`: inserting under an existing key overwrites the
value in place (keeping the key position of the first occurrence); a new
key is appended. -/
def dictDedupByUrl (entries : List SitemapEntry) : List SitemapEntry :=
  entries.foldl
    (fun acc e =>
      if acc.any (fun x => x.url = e.url) then
        acc.map (fun x => if x.url = e.url then e else x)
      else acc ++ [e])
    []

/-- CPython `urljoin(base, ref)` for a rooted reference (one starting with
`/`), the only form the repository joins: scheme and netloc of the base
with the reference as path. -/
def urljoin_rooted (base ref : List Char) : List Char :=
  let p := urlparse base
  p.scheme ++ ':' :: '/' :: '/' :: p.netloc ++ ref

/-- The candidate loop of `SitemapParser.parse`: extend `all_entries` with
each candidate's entries and stop at the first candidate after which the
accumulator is nonempty (returning it as `source`). -/
def sitemap_try_loop (fetch : List Char → Option SitemapDoc) :
    List (List Char) → List SitemapEntry → List SitemapEntry × Option (List Char)
  | [], acc => (acc, none)
  | u :: rest, acc =>
    let acc' := acc ++ parse_sitemap fetch u 0
    if acc' ≠ [] then (acc', some u) else sitemap_try_loop fetch rest acc'

/-- `SitemapParser.parse` (cache absent): choose candidate URLs, run the
candidate loop, deduplicate by URL via the dict comprehension, cap at
`MAX_SITEMAP_ENTRIES`. -/
def sitemap_parse (fetch : List Char → Option SitemapDoc) (base_url : List Char)
    (sitemap_urls : List (List Char)) : SitemapResult :=
  let urls_to_try :=
    if sitemap_urls = [] then
      [urljoin_rooted base_url ("/sitemap.xml".data),
       urljoin_rooted base_url ("/sitemap_index.xml".data)]
    else sitemap_urls
  let loop_result := sitemap_try_loop fetch urls_to_try []
  let all_entries := loop_result.1
  let unique_entries := dictDedupByUrl all_entries
  let capped := unique_entries.take MAX_SITEMAP_ENTRIES
  ⟨capped, match loop_result.2 with | some u => u | none => "sitemap".data⟩

/-! ## RobotsParser (src/backend/apps/crawler/robots_parser.py)

`_parse_content` is pure up to `float()` conversion of the crawl delay;
the model keeps the numeral text captured by the `(\d+\.?\d*)` group
(`float()` never fails on such a numeral, so no behavior is lost). -/

/-- Python `str.splitlines()` boundary characters (the ASCII ones plus
NEL and the Unicode separators). -/
def isLineBoundary (c : Char) : Bool :=
  c = '\n' || c = '\r' || c = '\x0b' || c = '\x0c' || c = '\x1c' ||
  c = '\x1d' || c = '\x1e' || c = '\x85' || c = '\u2028' || c = '\u2029'

/-- Python `str.splitlines()`: split at boundaries, `\r\n` counting as one
boundary, with no trailing empty line. -/
def pySplitlines : List Char → List (List Char)
  | [] => []
  | '\r' :: '\n' :: r => [] :: pySplitlines r
  | c :: cs =>
    if isLineBoundary c then [] :: pySplitlines cs
    else
      match pySplitlines cs with
      | [] => [[c]]
      | l :: ls => (c :: l) :: ls

/-- `RobotsResult` (src/backend/apps/core/models.py); `crawl_delay` keeps
the matched numeral text (see the section comment). -/
structure RobotsResult where
  sitemap_urls : List (List Char)
  crawl_delay : Option (List Char)
  disallowed_paths : List (List Char)
  deriving DecidableEq, Repr

/-- `re.match("^<key>\s*(.+)$", line, IGNORECASE)` followed by
`group(1).strip()`, on an already-stripped line: the line must start with
the key case-insensitively and have at least one character after it; the
stripped capture is returned (it equals the strip of the raw remainder,
whichever way the `\s*`-vs-`.+` backtracking resolves). -/
def directiveArg (key line : List Char) : Option (List Char) :=
  if (pyLower key).isPrefixOf (pyLower line) ∧ line.drop key.length ≠ [] then
    some (pyStrip (line.drop key.length))
  else none

/-- `re.match("^Disallow:\s*(.*)$", ...)` followed by `group(1).strip()`:
with a `(.*)` group the match succeeds whenever the prefix is present,
and the capture may be empty. -/
def disallowArg (line : List Char) : Option (List Char) :=
  if (pyLower ("Disallow:".data)).isPrefixOf (pyLower line) then
    some (pyStrip (line.drop 9))
  else none

/-- Full match of the `(\d+\.?\d*)$` group of the crawl-delay regex. -/
def isFloatNumeral (cs : List Char) : Bool :=
  let intPart := cs.takeWhile Char.isDigit
  let rest := cs.dropWhile Char.isDigit
  intPart ≠ [] &&
    (rest = [] || (rest.head? = some '.' && (rest.drop 1).all Char.isDigit))

/-- `re.match("^Crawl-delay:\s*(\d+\.?\d*)$", line, IGNORECASE)`: the
captured numeral, when the whole remainder after optional whitespace is
one. -/
def crawlDelayArg (line : List Char) : Option (List Char) :=
  if (pyLower ("Crawl-delay:".data)).isPrefixOf (pyLower line) then
    let v := (line.drop 12).dropWhile isPySpace
    if isFloatNumeral v then some v else none
  else none

/-- The line loop of `RobotsParser._parse_content`, carrying the three
accumulators and `applies_to_us` (the unused `current_agent` variable is
dropped). -/
def robotsLoop : List (List Char) → List (List Char) → List (List Char) →
    Option (List Char) → Bool → RobotsResult
  | [], sitemaps, disallowed, delay, _ => ⟨sitemaps, delay, disallowed⟩
  | rawLine :: rest, sitemaps, disallowed, delay, applies =>
    let line := pyStrip rawLine
    if line = [] ∨ line.head? = some '#' then
      robotsLoop rest sitemaps disallowed delay applies
    else
      match directiveArg ("Sitemap:".data) line with
      | some url =>
        robotsLoop rest (sitemaps ++ if url ≠ [] then [url] else []) disallowed delay applies
      | none =>
        match directiveArg ("User-agent:".data) line with
        | some agent =>
          let current_agent := pyLower agent
          robotsLoop rest sitemaps disallowed delay
            (current_agent = "*".data ∨ current_agent = "spongebot".data)
        | none =>
          if !applies then robotsLoop rest sitemaps disallowed delay applies
          else
            match disallowArg line with
            | some path =>
              robotsLoop rest sitemaps (disallowed ++ if path ≠ [] then [path] else [])
                delay applies
            | none =>
              match crawlDelayArg line with
              | some v =>
                robotsLoop rest sitemaps disallowed
                  (if delay = none then some v else delay) applies
              | none => robotsLoop rest sitemaps disallowed delay applies

/-- `RobotsParser._parse_content`. -/
def robots_parse_content (content : List Char) : RobotsResult :=
  robotsLoop (pySplitlines content) [] [] none false

/-! Spec-side model of robots.txt parsing, written from the claim text:
`Sitemap:` lines are collected statelessly (regardless of the active
block); a `User-agent:` line opens a block that applies iff its token is
`*` or the crawler name `spongebot`, case-insensitively; `Disallow:`
values are recorded only when nonempty and inside an applicable block;
`Crawl-delay:` is honored only inside an applicable block, first
occurrence winning. -/

/-- Spec: does a user-agent token make the block apply to this crawler? -/
def agentApplies (token : List Char) : Bool :=
  pyLower token = "*".data || pyLower token = "spongebot".data

/-- Spec: the block-scoped pass, collecting disallows and the first
applicable crawl delay. -/
def robotsSpecBlocks : List (List Char) → Bool →
    List (List Char) × Option (List Char)
  | [], _ => ([], none)
  | line :: rest, applies =>
    match directiveArg ("User-agent:".data) line with
    | some agent => robotsSpecBlocks rest (agentApplies agent)
    | none =>
      let r := robotsSpecBlocks rest applies
      if applies then
        match disallowArg line with
        | some path => (if path ≠ [] then path :: r.1 else r.1, r.2)
        | none =>
          match crawlDelayArg line with
          | some v => (r.1, some v)
          | none => r
      else r

/-- Spec-side model of `_parse_content`, from the claim text: sitemap URLs
by a stateless pass over the stripped lines, disallows/delay by the
block-scoped pass. -/
def robots_parse_content_spec (content : List Char) : RobotsResult :=
  let lines := (pySplitlines content).map pyStrip
  let sitemaps := lines.filterMap (fun l =>
    match directiveArg ("Sitemap:".data) l with
    | some url => if url ≠ [] then some url else none
    | none => none)
  let blocks := robotsSpecBlocks lines false
  ⟨sitemaps, blocks.2, blocks.1⟩

/-! ## MetaExtractor (src/backend/apps/extractor/meta_extractor.py)

A BeautifulSoup document is abstracted as a `Soup` record holding the
result of exactly the queries the extractor performs on it; the extractor
logic over those queries (truthiness tests, fallback chains, thresholds,
the CSR decision order) is translated from the source. -/

/-- Python truthiness of an `Optional[str]`: `None` and `""` are falsy. -/
def pyTruthyOpt : Option (List Char) → Bool
  | none => false
  | some s => s ≠ []

/-- The `<body>` facts `detect_csr` queries. -/
structure BodyModel where
  /-- `body.get_text(strip=True)`. -/
  text : List Char
  /-- Number of element children whose name is not script/style/link. -/
  non_script_children : Nat
  deriving Repr

/-- Abstraction of a parsed HTML document: the results of the
BeautifulSoup lookups performed by `MetaExtractor`. -/
structure Soup where
  /-- `.string` of the first `<title>` tag; `none` when the tag is missing
  or its `.string` is `None` (both fall through identically). -/
  title_string : Option (List Char)
  /-- `get_text(strip=True)` of the first `<h1>`, when one exists. -/
  h1_text : Option (List Char)
  /-- Result of `_extract_meta(soup, "description", name_attr="name")`
  (the stripped `content` when the lookup chain finds a truthy one). -/
  meta_description : Option (List Char)
  /-- Result of `_extract_meta(soup, "og:title")`. -/
  og_title : Option (List Char)
  /-- Result of `_extract_meta(soup, "og:description")`. -/
  og_description : Option (List Char)
  /-- Result of `_extract_meta(soup, "og:type")`. -/
  og_type : Option (List Char)
  /-- Result of `_extract_meta(soup, "og:image")`. -/
  og_image : Option (List Char)
  /-- `get_text(strip=True)` of the first `<p>`, when one exists. -/
  first_p_text : Option (List Char)
  /-- The `<body>` tag, when present. -/
  body : Option BodyModel
  /-- Is a `<div id="__next">` present? -/
  next_div : Bool
  /-- `get_text(strip=True)` of `soup.find("div", id="root") or
  soup.find("div", id="app")`, when either exists. -/
  root_or_app_div_text : Option (List Char)
  /-- Is a `<noscript>` tag present? -/
  noscript : Bool
  deriving Repr

def MAX_DESCRIPTION_LENGTH : Nat := 500

/-- `MetaExtractor._extract_title`: `<title>` string when truthy
(stripped), else the first `<h1>` text, else `None`. -/
def extract_title (soup : Soup) : Option (List Char) :=
  if pyTruthyOpt soup.title_string then soup.title_string.map pyStrip
  else soup.h1_text

/-- `MetaExtractor._extract_description`, `<p>` fallback: text longer than
20 characters, truncated. -/
def first_p_description (soup : Soup) : Option (List Char) :=
  match soup.first_p_text with
  | some t => if 20 < t.length then some (t.take MAX_DESCRIPTION_LENGTH) else none
  | none => none

/-- `MetaExtractor._extract_description`: meta description, else
`og:description`, else a long-enough first `<p>`; truncated to
`MAX_DESCRIPTION_LENGTH`. -/
def extract_description (soup : Soup) : Option (List Char) :=
  if pyTruthyOpt soup.meta_description then
    soup.meta_description.map (fun d => d.take MAX_DESCRIPTION_LENGTH)
  else if pyTruthyOpt soup.og_description then
    soup.og_description.map (fun d => d.take MAX_DESCRIPTION_LENGTH)
  else first_p_description soup

/-- `CSRDetection` (src/backend/apps/core/models.py). -/
structure CSRDetection where
  is_csr : Bool
  has_useful_meta : Bool
  deriving DecidableEq, Repr

/-- `MetaExtractor.detect_csr`, decision order as in the source. -/
def detect_csr (soup : Soup) : CSRDetection :=
  let title := extract_title soup
  let description := extract_description soup
  let has_useful_meta := pyTruthyOpt title && pyTruthyOpt description
  match soup.body with
  | none => ⟨true, has_useful_meta⟩
  | some body =>
    let body_text := body.text
    if 200 < body_text.length then ⟨false, has_useful_meta⟩
    else if soup.next_div && has_useful_meta then ⟨false, true⟩
    else
      let root_hit :=
        match soup.root_or_app_div_text with
        | some t => decide (t.length < 50)
        | none => false
      if root_hit then ⟨true, has_useful_meta⟩
      else if soup.noscript && body_text.length < 100 then ⟨true, has_useful_meta⟩
      else if body.non_script_children ≤ 1 && body_text.length < 50 then
        ⟨true, has_useful_meta⟩
      else ⟨false, has_useful_meta⟩

/-- `ExtractedPage` (src/backend/apps/core/models.py) with its field
defaults. -/
structure ExtractedPage where
  url : List Char
  title : Option (List Char) := none
  description : Option (List Char) := none
  og_title : Option (List Char) := none
  og_description : Option (List Char) := none
  og_type : Option (List Char) := none
  og_image : Option (List Char) := none
  content_text : Option (List Char) := none
  is_js_rendered : Bool := false
  fetch_status : Nat := 200
  error : Option (List Char) := none
  deriving DecidableEq, Repr

/-- `MetaExtractor.extract`: parse (via the `parseHtml` oracle) and fill
an `ExtractedPage` with metadata and the CSR verdict; `content_text` is
not set here. -/
def meta_extract (parseHtml : List Char → Soup) (url html : List Char) : ExtractedPage :=
  let soup := parseHtml html
  let csr := detect_csr soup
  { url := url
    title := extract_title soup
    description := extract_description soup
    og_title := soup.og_title
    og_description := soup.og_description
    og_type := soup.og_type
    og_image := soup.og_image
    is_js_rendered := csr.is_csr }

/-! ## SmartPageFetcher (src/backend/apps/crawler/page_fetcher.py)

Network effects are the oracles of `FetchOracles`; exceptions raised by
`httpx` / Playwright are modelled as the `Except` error case carrying
`str(exc)`.  `asyncio.gather` preserves task order, so the two
fan-out/fan-in phases are order-preserving maps.  The
`isinstance(result, Exception)` arm of `_playwright_fetch_batch` is
unreachable (`render_one` catches every exception itself), so the batch
is the map of `render_one`. -/

/-- `_SOFT_404_SIGNALS`. -/
def SOFT_404_SIGNALS : List (List Char) :=
  ["page not found".data, "404 not found".data, "404 error".data,
   "not found".data, "page doesn\x27t exist".data,
   "page does not exist".data, "nothing here".data,
   "this page isn\x27t available".data,
   "this page could not be found".data, "we couldn\x27t find".data,
   "no longer available".data, "has been removed".data,
   "has been moved".data, "does not exist".data, "access denied".data,
   "forbidden".data, "403 forbidden".data,
   "you don\x27t have permission".data, "blocked".data,
   "just a moment".data, "error 404".data, "error 403".data,
   "error 500".data, "internal server error".data,
   "service unavailable".data]

/-- `_is_soft_404`: a signal phrase occurs in the lowercased
title/description or in the first 500 characters of the content. -/
def is_soft_404 (page : ExtractedPage) : Bool :=
  let fields_to_check :=
    [pyStrip (pyLower (page.title.getD [])),
     pyStrip (pyLower (page.description.getD [])),
     pyLower ((page.content_text.getD []).take 500)]
  fields_to_check.any (fun field =>
    SOFT_404_SIGNALS.any (fun signal => containsSub field signal))

/-- An `httpx` response as consumed by the fetcher. -/
structure HttpResponse where
  status_code : Nat
  /-- `response.headers.get("content-type", "")`. -/
  content_type : List Char
  text : List Char
  deriving DecidableEq, Repr

/-- `RenderedPage` (src/backend/apps/core/models.py), the fields the
fetcher reads. -/
structure RenderedPage where
  html : List Char
  status : Nat := 200
  error : Option (List Char) := none
  deriving DecidableEq, Repr

/-- The effect oracles of the fetch pipeline. -/
structure FetchOracles where
  /-- `http_client.get`; the error case is a raised exception's `str`. -/
  httpGet : List Char → Except (List Char) HttpResponse
  /-- BeautifulSoup parsing, as consumed by `MetaExtractor`. -/
  parseHtml : List Char → Soup
  /-- `ContentExtractor.extract` (markdown, `""` when nothing). -/
  contentExtract : List Char → List Char
  /-- `PlaywrightProvider.get_page_content`; the error case is a raised
  exception's `str`. -/
  browserGet : List Char → Except (List Char) RenderedPage

/-- `SmartPageFetcher._http_fetch_and_extract`. -/
def http_fetch_and_extract (o : FetchOracles) (page : DiscoveredPage) : ExtractedPage :=
  match o.httpGet page.url with
  | .error exc => { url := page.url, fetch_status := 0, error := some exc }
  | .ok response =>
    if !containsSub response.content_type ("text/html".data) then
      { url := page.url, fetch_status := response.status_code,
        error := some (("Non-HTML content type: ".data) ++ response.content_type) }
    else if 400 ≤ response.status_code then
      { url := page.url, fetch_status := response.status_code,
        error := some (("HTTP ".data) ++ Nat.toDigits 10 response.status_code) }
    else
      let extracted0 := meta_extract o.parseHtml page.url response.text
      let extracted := { extracted0 with fetch_status := response.status_code }
      if is_soft_404 extracted then
        { url := page.url, fetch_status := response.status_code,
          error := some ("Soft 404: page content indicates an error page".data) }
      else
        let content_text := o.contentExtract response.text
        if content_text ≠ [] then { extracted with content_text := some content_text }
        else extracted

/-- The `render_one` closure of `SmartPageFetcher._playwright_fetch_batch`
(which catches every exception itself). -/
def render_one (o : FetchOracles) (page : DiscoveredPage) : ExtractedPage :=
  match o.browserGet page.url with
  | .error exc => { url := page.url, error := some exc, fetch_status := 0 }
  | .ok rendered =>
    if pyTruthyOpt rendered.error then
      { url := page.url, error := rendered.error, fetch_status := rendered.status }
    else
      let extracted0 := meta_extract o.parseHtml page.url rendered.html
      let extracted1 :=
        { extracted0 with is_js_rendered := true, fetch_status := rendered.status }
      let content_text := o.contentExtract rendered.html
      let extracted :=
        if content_text ≠ [] then { extracted1 with content_text := some content_text }
        else extracted1
      if is_soft_404 extracted then
        { url := page.url, fetch_status := rendered.status,
          error := some ("Soft 404: rendered page content indicates an error page".data) }
      else extracted

/-- `SmartPageFetcher._playwright_fetch_batch`: order-preserving render of
a batch. -/
def playwright_fetch_batch (o : FetchOracles) (pages : List DiscoveredPage) :
    List ExtractedPage :=
  pages.map (render_one o)

/-- `retry_statuses = {403, 429}`. -/
def retry_statuses : List Nat := [403, 429]

/-- The needs-browser test of step 3 of `fetch_all`: CSR-flagged without a
(truthy) error, or a bot-blocking HTTP status. -/
def needs_browser (result : ExtractedPage) : Bool :=
  (result.is_js_rendered && !pyTruthyOpt result.error) ||
    retry_statuses.contains result.fetch_status

/-- Placeholder for the (never-taken) out-of-range `getD` defaults. -/
def default_extracted : ExtractedPage := { url := [] }

/-- Placeholder page for the (never-taken) out-of-range `getD` defaults. -/
def default_page : DiscoveredPage := ⟨[], [], 0⟩

/-- The index set of step 3 of `fetch_all`. -/
def csr_indices (results : List ExtractedPage) : List Nat :=
  (List.range results.length).filter
    (fun i => needs_browser (results.getD i default_extracted))

/-- `SmartPageFetcher.fetch_all`: HTTP phase over all pages, render phase
over the needs-browser indices, merge keeping a rendered result only when
its error is falsy. -/
def fetch_all (o : FetchOracles) (pages : List DiscoveredPage) : List ExtractedPage :=
  let results := pages.map (http_fetch_and_extract o)
  let idxs := csr_indices results
  if idxs = [] then results
  else
    let csr_pages := idxs.map (fun i => pages.getD i default_page)
    let rendered_results := playwright_fetch_batch o csr_pages
    (idxs.zip rendered_results).foldl
      (fun acc p => if !pyTruthyOpt p.2.error then acc.set p.1 p.2 else acc)
      results

/-! ## ContentExtractor (src/backend/apps/extractor/content_extractor.py)

The DOM work of `extract` (`_remove_noise`, `_find_content`, the
html2text conversion) is abstracted as one oracle
`toMarkdown : html -> raw markdown`; the markdown post-processing
(`_clean_markdown`, `_strip_boilerplate`, truncation) is translated from
the source, with each compiled regex modelled as the equivalent
deterministic character-list predicate. -/

def MAX_CONTENT_LENGTH : Nat := 5000

/-- `_CTA_PHRASES`. -/
def CTA_PHRASES : List (List Char) :=
  ["get a demo".data, "get started".data, "sign up".data, "sign in".data,
   "log in".data, "contact us".data, "learn more".data, "try free".data,
   "start free".data, "book a demo".data, "request a demo".data,
   "start now".data, "try now".data, "get in touch".data,
   "schedule a demo".data, "talk to sales".data, "contact sales".data,
   "request access".data, "join now".data, "subscribe".data,
   "try it free".data, "start your free trial".data,
   "create account".data, "sign up free".data, "get early access".data,
   "join the waitlist".data, "see pricing".data, "view pricing".data,
   "read more".data, "see all".data, "see more".data, "show more".data,
   "see all stories".data, "try agents".data, "watch demo".data,
   "watch video".data]

/-- Regex `\w` on ASCII. -/
def isWordChar (c : Char) : Bool := c.isAlpha || c.isDigit || c = '_'

/-- The character class of `_LOGO_LINE_RE`. -/
def isLogoClassChar (c : Char) : Bool :=
  isWordChar c || isPySpace c || c = '.' || c = '&' || c = '\x27' || c = '-'

/-- `_LOGO_LINE_RE.match(s)`, the regex being anchored on both sides:
after dropping trailing whitespace the line ends in `logo`
(case-insensitive) preceded by at least one whitespace character preceded
by at least one class character, everything before `logo` lying in the
class. -/
def logo_line_match (s : List Char) : Bool :=
  let t := (s.reverse.dropWhile isPySpace).reverse
  if ("logo".data).isSuffixOf (pyLower t) then
    let before := t.take (t.length - 4)
    before.all isLogoClassChar &&
      (match before.getLast? with
       | some c => isPySpace c
       | none => false) &&
      (before.reverse.dropWhile isPySpace) ≠ []
  else false

/-- `_CTA_LINK_RE.match(s)`: `^\[([^\]]+)\]\([^)]+\)\s*$`; returns the
captured link text; both bracketed parts are the (nonempty) spans up to
the first closing bracket, and only whitespace may follow. -/
def cta_link_text (s : List Char) : Option (List Char) :=
  match s with
  | '[' :: rest =>
    let txt := rest.takeWhile (fun c => c ≠ ']')
    let rest2 := rest.dropWhile (fun c => c ≠ ']')
    if txt = [] then none
    else
      match rest2 with
      | ']' :: '(' :: rest3 =>
        let href := rest3.takeWhile (fun c => c ≠ ')')
        let rest4 := rest3.dropWhile (fun c => c ≠ ')')
        if href = [] then none
        else
          match rest4 with
          | ')' :: tail => if tail.all isPySpace then some txt else none
          | _ => none
      | _ => none
  | _ => none

/-- The keyword alternatives of `_SOCIAL_PROOF_RE`. -/
def SOCIAL_PROOF_KEYWORDS : List (List Char) :=
  ["used".data, "trusted".data, "loved".data, "relied on".data,
   "chosen".data, "preferred".data]

/-- `_SOCIAL_PROOF_RE.match(s)`: up to three leading `#`, optional
whitespace, then `<keyword> by` case-insensitively at a word boundary. -/
def social_proof_match (s : List Char) : Bool :=
  let hashes := (s.takeWhile (fun c => c = '#')).length
  let s1 := s.drop (min hashes 3)
  let l := pyLower (s1.dropWhile isPySpace)
  SOCIAL_PROOF_KEYWORDS.any (fun kw =>
    let pre := kw ++ (" by".data)
    pre.isPrefixOf l &&
      (match (l.drop pre.length).head? with
       | some c => !isWordChar c
       | none => true))

/-- The per-line keep test of `_strip_boilerplate` (blank lines kept,
CTA-only lines, CTA links, logo lines and social-proof headers dropped). -/
def strip_boilerplate_keep (line : List Char) : Bool :=
  let stripped := pyStrip line
  let lower := pyRstripChar '.' (pyLower stripped)
  if stripped = [] then true
  else if CTA_PHRASES.contains lower then false
  else if (match cta_link_text stripped with
           | some txt => CTA_PHRASES.contains (pyRstripChar '.' (pyStrip (pyLower txt)))
           | none => false) then false
  else if logo_line_match stripped then false
  else if social_proof_match stripped then false
  else true

/-- `re.sub(r"\n{3,}", "\n\n", text)`: collapse each maximal run of three
or more newlines to exactly two, implemented with a counter of newlines
already kept in the current run (at most two are emitted per run). -/
def collapseNlAux : Nat → List Char → List Char
  | _, [] => []
  | k, c :: rest =>
    if c = '\n' then
      if k < 2 then '\n' :: collapseNlAux (k + 1) rest else collapseNlAux k rest
    else c :: collapseNlAux 0 rest

/-- `re.sub(r"\n{3,}", "\n\n", text)`. -/
def collapseNewlineRuns (cs : List Char) : List Char := collapseNlAux 0 cs

/-- One line of `re.sub(r"^\s*\[edit\]\s*$", "", MULTILINE)`: is the line
whitespace, `[edit]`, whitespace?  (A `\s*` span across an adjacent blank
line is not modelled; the inputs considered contain no `[edit]`.) -/
def lineIsEditOnly (l : List Char) : Bool :=
  let a := l.dropWhile isPySpace
  ("[edit]".data).isPrefixOf a && (a.drop 6).all isPySpace

/-- `re.sub(r"[ \t]+$", "", line)` for one line of the MULTILINE sub. -/
def rstripSpaceTab (l : List Char) : List Char :=
  (l.reverse.dropWhile (fun c => c = ' ' || c = '\t')).reverse

/-- `ContentExtractor._clean_markdown`. -/
def clean_markdown (text : List Char) : List Char :=
  let t1 := collapseNewlineRuns text
  let t2 := joinChar '\n' ((pySplitChar '\n' t1).map rstripSpaceTab)
  let t3 := joinChar '\n'
    ((pySplitChar '\n' t2).map (fun l => if lineIsEditOnly l then [] else l))
  pyStrip t3

/-- `ContentExtractor._strip_boilerplate`. -/
def strip_boilerplate (text : List Char) : List Char :=
  let lines := pySplitChar '\n' text
  let cleaned := lines.filter strip_boilerplate_keep
  let result := joinChar '\n' cleaned
  pyStrip (collapseNewlineRuns result)

/-- `cleaned[:5000].rsplit("\n", 1)[0]`. -/
def truncateAtLastLine (cleaned : List Char) : List Char :=
  let cut := cleaned.take MAX_CONTENT_LENGTH
  if cut.contains '\n' then
    ((cut.reverse.dropWhile (fun c => c ≠ '\n')).reverse).dropLast
  else cut

/-- `ContentExtractor.extract` over the `toMarkdown` oracle. -/
def content_extract (toMarkdown : List Char → List Char) (html : List Char) : List Char :=
  let markdown := toMarkdown html
  let cleaned := clean_markdown markdown
  let cleaned := strip_boilerplate cleaned
  let cleaned :=
    if MAX_CONTENT_LENGTH < cleaned.length then truncateAtLastLine cleaned
    else cleaned
  pyStrip cleaned

/-! ## Concrete scenarios used by witnesses and counterexamples -/

/-- A server-rendered document: long body, useful meta. -/
def exSoupRich : Soup :=
  { title_string := some ("Hello World Product".data)
    h1_text := none
    meta_description := some ("A fine landing page about widgets".data)
    og_title := none, og_description := none, og_type := none, og_image := none
    first_p_text := none
    body := some ⟨List.replicate 300 'w', 5⟩
    next_div := false, root_or_app_div_text := none, noscript := false }

/-- A client-side-rendered document: no body at all. -/
def exSoupCsr : Soup :=
  { title_string := none, h1_text := none, meta_description := none
    og_title := none, og_description := none, og_type := none, og_image := none
    first_p_text := none, body := none, next_div := false
    root_or_app_div_text := none, noscript := false }

/-- Oracles for the five-page `fetch_all` scenario: `u2` is CSR (renders
fine), `u4` is blocked with 403 (render fails), the rest are plain
server-rendered pages. -/
def exOracles5 : FetchOracles :=
  { httpGet := fun url =>
      if url = ("u2".data) then .ok ⟨200, "text/html".data, "csr-html".data⟩
      else if url = ("u4".data) then .ok ⟨403, "text/html".data, "blocked".data⟩
      else .ok ⟨200, "text/html".data, "rich-html".data⟩
    parseHtml := fun html => if html = ("csr-html".data) then exSoupCsr else exSoupRich
    contentExtract := fun _ => "Some extracted body content.".data
    browserGet := fun url =>
      if url = ("u4".data) then .ok ⟨[], 0, some ("render boom".data)⟩
      else .ok ⟨"rendered-html".data, 200, none⟩ }

/-- The five pages of the scenario. -/
def exPages5 : List DiscoveredPage :=
  [⟨"u1".data, "sitemap".data, 0⟩, ⟨"u2".data, "sitemap".data, 0⟩,
   ⟨"u3".data, "sitemap".data, 0⟩, ⟨"u4".data, "sitemap".data, 0⟩,
   ⟨"u5".data, "sitemap".data, 0⟩]

/-- Oracles whose HTTP phase yields a 200 HTML page with clean metadata
but whose extracted content starts with a soft-404 signal phrase. -/
def exOracles6 : FetchOracles :=
  { httpGet := fun _ => .ok ⟨200, "text/html".data, "h".data⟩
    parseHtml := fun _ => exSoupRich
    contentExtract := fun _ => "404 not found: this content is gone".data
    browserGet := fun _ => .error ("unused".data) }

/-- A soup whose `<title>` is literally `404 Not Found`. -/
def exSoup404 : Soup :=
  { exSoupRich with title_string := some ("404 Not Found".data) }

/-- Oracles whose HTTP phase yields a 200 HTML page titled
`404 Not Found`. -/
def exOracles404 : FetchOracles :=
  { exOracles6 with parseHtml := fun _ => exSoup404 }

/-- A sitemap web with one urlset holding two entries for the same URL
with different priorities. -/
def exFetchDup : List Char → Option SitemapDoc := fun u =>
  if u = ("s".data) then
    some (.urlset [⟨some ("http://a.com/p".data), some ("0.5".data)⟩,
                   ⟨some ("http://a.com/p".data), some ("0.9".data)⟩])
  else none

/-- The i-th distinct page URL of the 600-URL sitemap scenario. -/
def mkUrl600 (i : Nat) : List Char := ("http://a/".data) ++ List.replicate i 'x'

/-- The 600 `<url>` tags of the scenario. -/
def tags600 : List UrlTag :=
  (List.range 600).map (fun i => ⟨some (mkUrl600 i), none⟩)

/-- A two-level sitemap web: `root` is an index of two leaf sitemaps
holding 300 distinct page URLs each. -/
def exFetch600 : List Char → Option SitemapDoc := fun u =>
  if u = ("root".data) then some (.index [⟨some ("s1".data)⟩, ⟨some ("s2".data)⟩])
  else if u = ("s1".data) then some (.urlset (tags600.take 300))
  else if u = ("s2".data) then some (.urlset (tags600.drop 300))
  else none

/-- Spec-side description of Python dict key order: the keys in order of
first insertion. -/
def firstSeenKeys (ls : List (List Char)) : List (List Char) :=
  ls.foldl (fun acc u => if acc.contains u then acc else acc ++ [u]) []

/-! # Theorems -/

set_option maxRecDepth 4000

/-- C7: a document with a `<body>` whose visible text exceeds 200
characters is never flagged CSR, regardless of any SPA root marker or
other field of the document. -/
theorem detect_csr_long_body_not_csr (soup : Soup) (b : BodyModel)
    (hb : soup.body = some b) (hlen : 200 < b.text.length) :
    (detect_csr soup).is_csr = false := by
  unfold detect_csr
  rw [hb]
  simp [hlen]

/-- Witness for C7: a 250-character body with an empty `div#root` SPA
marker is not flagged CSR. -/
theorem detect_csr_long_body_not_csr_witness :
    (detect_csr { exSoupCsr with
        body := some ⟨List.replicate 250 'w', 1⟩,
        root_or_app_div_text := some [] }).is_csr = false :=
  detect_csr_long_body_not_csr _ ⟨List.replicate 250 'w', 1⟩ rfl (by simp)

/-- C9: on HTML whose markdown rendering is a paragraph, three
consecutive CTA-only lines (`Get started` / `Learn more` / `Sign up`), a
`Trusted by Acme, Globex` heading and a closing paragraph, `extract`
removes the CTA lines and the trusted-by line and keeps both paragraphs
unchanged. -/
theorem content_extract_strips_cta_and_trusted
    (toMarkdown : List Char → List Char) (html : List Char)
    (h : toMarkdown html =
      ("Our product is great.\n\nGet started\nLearn more\nSign up\n\nTrusted by Acme, Globex\n\nMore body text here.").data) :
    content_extract toMarkdown html =
      ("Our product is great.\n\nMore body text here.").data := by
  unfold content_extract
  rw [h]
  decide

/-- Witness for C9 at a constant markdown oracle. -/
theorem content_extract_strips_cta_and_trusted_witness :
    content_extract
      (fun _ =>
        ("Our product is great.\n\nGet started\nLearn more\nSign up\n\nTrusted by Acme, Globex\n\nMore body text here.").data)
      [] = ("Our product is great.\n\nMore body text here.").data :=
  content_extract_strips_cta_and_trusted _ [] rfl

/-- C6 counterexample: a 200 HTML response whose soft-404 signal occurs
only in the first 500 characters of the extracted content (title and
description clean) is returned as a successful extraction with no error
and with content, because `_http_fetch_and_extract` runs the soft-404
check before content extraction. -/
theorem http_fetch_content_signal_not_rejected :
    exOracles6.httpGet ("u".data) = .ok ⟨200, "text/html".data, "h".data⟩ ∧
    (SOFT_404_SIGNALS.any (fun signal =>
      containsSub (pyLower ((exOracles6.contentExtract ("h".data)).take 500)) signal)) = true ∧
    (http_fetch_and_extract exOracles6 ⟨"u".data, "sitemap".data, 0⟩).error = none ∧
    (http_fetch_and_extract exOracles6 ⟨"u".data, "sitemap".data, 0⟩).content_text ≠ none := by
  refine ⟨rfl, by decide, by decide, by decide⟩

/-- C6 (amended): a 200 HTML response whose metadata extraction (title or
description; `content_text` is not yet set at this point) matches the
soft-404 signal set is rejected: the `ExtractedPage` carries the soft-404
error and no content. -/
theorem http_fetch_soft404_rejected (o : FetchOracles) (page : DiscoveredPage)
    (r : HttpResponse)
    (hget : o.httpGet page.url = .ok r)
    (hct : containsSub r.content_type ("text/html".data) = true)
    (hst : r.status_code = 200)
    (hsig : is_soft_404
      { meta_extract o.parseHtml page.url r.text with fetch_status := r.status_code } = true) :
    (http_fetch_and_extract o page).error =
      some ("Soft 404: page content indicates an error page".data) ∧
    (http_fetch_and_extract o page).content_text = none := by
  rw [hst] at hsig
  unfold http_fetch_and_extract
  rw [hget]
  dsimp only
  rw [hct, hst]
  simp [hsig]

/-- Witness for C6 (amended): a 200 HTML response titled `404 Not Found`
is rejected with the soft-404 error and empty content. -/
theorem http_fetch_soft404_rejected_witness :
    (http_fetch_and_extract exOracles404 ⟨"u".data, "sitemap".data, 0⟩).error =
      some ("Soft 404: page content indicates an error page".data) ∧
    (http_fetch_and_extract exOracles404 ⟨"u".data, "sitemap".data, 0⟩).content_text = none :=
  http_fetch_soft404_rejected exOracles404 ⟨"u".data, "sitemap".data, 0⟩
    ⟨200, "text/html".data, "h".data⟩ rfl (by decide) rfl (by decide)

/-! Helper lemmas about lists and the merge fold of `fetch_all`. -/

theorem list_set_getD_self {α : Type} (l : List α) (i : Nat) (d : α)
    (h : i < l.length) : l.set i (l.getD i d) = l := by
  rw [List.getD_eq_getElem l d h]
  apply List.ext_getElem?
  intro j
  by_cases hj : i = j
  · subst hj
    rw [List.getElem?_set_self']
    simp [List.getElem?_eq_getElem h]
  · rw [List.getElem?_set_ne hj]

theorem zip_map_self {α β : Type} (l : List α) (F : α → β) :
    l.zip (l.map F) = l.map (fun i => (i, F i)) := by
  induction l with
  | nil => rfl
  | cons a t ih => simp [ih]

theorem merge_foldl_length (ps : List (Nat × ExtractedPage)) (acc : List ExtractedPage) :
    (ps.foldl (fun acc p => if !pyTruthyOpt p.2.error then acc.set p.1 p.2 else acc)
      acc).length = acc.length := by
  induction ps generalizing acc with
  | nil => rfl
  | cons p rest ih =>
    simp only [List.foldl_cons]
    rw [ih]
    split <;> simp

theorem merge_foldl_getD (i : Nat) (ps : List (Nat × ExtractedPage))
    (acc : List ExtractedPage)
    (h : ∀ p ∈ ps, p.1 = i → pyTruthyOpt p.2.error = true) :
    (ps.foldl (fun acc p => if !pyTruthyOpt p.2.error then acc.set p.1 p.2 else acc)
        acc).getD i default_extracted = acc.getD i default_extracted := by
  induction ps generalizing acc with
  | nil => rfl
  | cons p rest ih =>
    simp only [List.foldl_cons]
    rw [ih _ (fun q hq => h q (List.mem_cons_of_mem _ hq))]
    split
    · rename_i hcond
      by_cases hpi : p.1 = i
      · exact absurd (h p (List.mem_cons_self _ _) hpi) (by simpa using hcond)
      · rw [List.getD_eq_getElem?_getD, List.getElem?_set_ne hpi,
          ← List.getD_eq_getElem?_getD]
    · rfl

theorem merge_foldl_map_url (ps : List (Nat × ExtractedPage))
    (urls : List (List Char)) :
    ∀ acc : List ExtractedPage, acc.map (fun p => p.url) = urls →
      (∀ p ∈ ps, p.2.url = urls.getD p.1 []) →
      (ps.foldl (fun acc p => if !pyTruthyOpt p.2.error then acc.set p.1 p.2 else acc)
        acc).map (fun p => p.url) = urls := by
  induction ps with
  | nil => intro acc h _; exact h
  | cons p rest ih =>
    intro acc hacc hurl
    simp only [List.foldl_cons]
    apply ih
    · split
      · rw [List.map_set, hacc, hurl p (List.mem_cons_self _ _)]
        by_cases hp : p.1 < urls.length
        · exact list_set_getD_self urls p.1 [] hp
        · exact List.set_eq_of_length_le (le_of_not_lt hp)
      · exact hacc
    · intro q hq
      exact hurl q (List.mem_cons_of_mem _ hq)

theorem meta_extract_url (ph : List Char → Soup) (url html : List Char) :
    (meta_extract ph url html).url = url := rfl

theorem http_fetch_and_extract_url (o : FetchOracles) (page : DiscoveredPage) :
    (http_fetch_and_extract o page).url = page.url := by
  unfold http_fetch_and_extract
  cases o.httpGet page.url with
  | error e => rfl
  | ok r =>
    dsimp only
    split
    · rfl
    · split
      · rfl
      · split
        · rfl
        · split <;> rfl

theorem render_one_url (o : FetchOracles) (page : DiscoveredPage) :
    (render_one o page).url = page.url := by
  unfold render_one
  cases o.browserGet page.url with
  | error e => rfl
  | ok rendered =>
    dsimp only
    repeat' split
    all_goals rfl

theorem http_results_map_url (o : FetchOracles) (pages : List DiscoveredPage) :
    (pages.map (http_fetch_and_extract o)).map (fun p => p.url) =
      pages.map (fun p => p.url) := by
  rw [List.map_map]
  exact List.map_congr_left (fun p _ => http_fetch_and_extract_url o p)

theorem mem_csr_indices_lt (results : List ExtractedPage) (i : Nat)
    (h : i ∈ csr_indices results) : i < results.length := by
  unfold csr_indices at h
  exact List.mem_range.mp (List.mem_filter.mp h).1

theorem fetch_all_length (o : FetchOracles) (pages : List DiscoveredPage) :
    (fetch_all o pages).length = pages.length := by
  unfold fetch_all
  dsimp only
  split
  · simp
  · rw [merge_foldl_length]
    simp

theorem needs_browser_iff (r : ExtractedPage) :
    needs_browser r = true ↔
      ((r.is_js_rendered = true ∧ pyTruthyOpt r.error = false) ∨
        r.fetch_status = 403 ∨ r.fetch_status = 429) := by
  unfold needs_browser retry_statuses
  simp [List.contains, List.elem_iff, Bool.or_eq_true, Bool.and_eq_true,
    Bool.not_eq_true']

/-- C1: `fetch_all` returns one `ExtractedPage` per input `DiscoveredPage`
in input order: the output length equals the input length and the i-th
output carries the i-th input's URL (no page is dropped or duplicated,
whatever the individual fetch, extraction or render outcomes encoded in
the oracles). -/
theorem fetch_all_one_output_per_input (o : FetchOracles)
    (pages : List DiscoveredPage) :
    (fetch_all o pages).length = pages.length ∧
    (fetch_all o pages).map (fun p => p.url) = pages.map (fun p => p.url) := by
  refine ⟨fetch_all_length o pages, ?_⟩
  unfold fetch_all
  dsimp only
  split
  · exact http_results_map_url o pages
  · unfold playwright_fetch_batch
    rw [List.map_map, zip_map_self]
    apply merge_foldl_map_url _ _ _ (http_results_map_url o pages)
    intro p hp
    obtain ⟨j, hj, rfl⟩ := List.mem_map.mp hp
    have hjlt : j < pages.length := by
      have := mem_csr_indices_lt _ _ hj
      simpa using this
    dsimp only [Function.comp]
    rw [render_one_url, List.getD_eq_getElem pages default_page hjlt,
      List.getD_eq_getElem (List.map (fun p => p.url) pages) [] (by simpa using hjlt),
      List.getElem_map]

/-- C10: a page enters the render phase iff its HTTP-phase result has
`is_js_rendered` with no truthy error, or its `fetch_status` is 403 or
429; and a page whose HTTP-phase result does not satisfy that test is
returned unchanged by `fetch_all`. -/
theorem fetch_all_render_selection (o : FetchOracles)
    (pages : List DiscoveredPage) (i : Nat) :
    (i ∈ csr_indices (pages.map (http_fetch_and_extract o)) ↔
      i < pages.length ∧
        (((http_fetch_and_extract o (pages.getD i default_page)).is_js_rendered = true ∧
          pyTruthyOpt (http_fetch_and_extract o (pages.getD i default_page)).error = false) ∨
         (http_fetch_and_extract o (pages.getD i default_page)).fetch_status = 403 ∨
         (http_fetch_and_extract o (pages.getD i default_page)).fetch_status = 429)) ∧
    (needs_browser ((pages.map (http_fetch_and_extract o)).getD i default_extracted)
        = false →
      (fetch_all o pages).getD i default_extracted =
        (pages.map (http_fetch_and_extract o)).getD i default_extracted) := by
  have hgetD : i < pages.length →
      (pages.map (http_fetch_and_extract o)).getD i default_extracted =
        http_fetch_and_extract o (pages.getD i default_page) := by
    intro hlt
    rw [List.getD_eq_getElem _ _ (by simpa using hlt), List.getElem_map,
      List.getD_eq_getElem _ _ hlt]
  constructor
  · unfold csr_indices
    rw [List.mem_filter, List.mem_range, List.length_map]
    constructor
    · rintro ⟨hlt, hpred⟩
      rw [hgetD hlt] at hpred
      exact ⟨hlt, (needs_browser_iff _).mp hpred⟩
    · rintro ⟨hlt, hcond⟩
      refine ⟨hlt, ?_⟩
      rw [hgetD hlt]
      exact (needs_browser_iff _).mpr hcond
  · intro hnb
    have hni : i ∉ csr_indices (pages.map (http_fetch_and_extract o)) := by
      unfold csr_indices
      rw [List.mem_filter]
      rintro ⟨-, hpred⟩
      rw [hnb] at hpred
      exact Bool.false_ne_true hpred
    unfold fetch_all
    dsimp only
    split
    · rfl
    · unfold playwright_fetch_batch
      rw [List.map_map, zip_map_self]
      apply merge_foldl_getD
      intro p hp hpi
      obtain ⟨j, hj, rfl⟩ := List.mem_map.mp hp
      exact absurd (hpi ▸ hj) hni

/-- Witness for C10 at the five-page scenario (`u3` has a clean 200
server-rendered HTTP result, so it is not rendered and is returned
unchanged). -/
theorem fetch_all_render_selection_witness :
    (fetch_all exOracles5 exPages5).getD 2 default_extracted =
      (exPages5.map (http_fetch_and_extract exOracles5)).getD 2 default_extracted :=
  (fetch_all_render_selection exOracles5 exPages5 2).2 (by decide)

/-- C2 counterexample: in the five-page scenario exactly two pages (`u2`,
`u4`) enter the render phase and `u4`'s render fails, yet no output
carries the render error: the merge keeps `u4`'s HTTP-phase result (error
`HTTP 403`) even though that HTTP result was itself unusable (truthy
error), so the output carries 0 render errors where the claim demands
exactly 1. -/
theorem fetch_all_render_error_not_reported :
    csr_indices (exPages5.map (http_fetch_and_extract exOracles5)) = [1, 3] ∧
    pyTruthyOpt
      ((exPages5.map (http_fetch_and_extract exOracles5)).getD 3
        default_extracted).error = true ∧
    (render_one exOracles5 (exPages5.getD 3 default_page)).error =
      some ("render boom".data) ∧
    ((fetch_all exOracles5 exPages5).getD 3 default_extracted).error =
      some ("HTTP 403".data) ∧
    (fetch_all exOracles5 exPages5).countP
      (fun p => decide (p.error = some ("render boom".data))) = 0 := by
  refine ⟨by decide, by decide, by decide, by decide, by decide⟩

/-- C2 (amended): `fetch_all` returns one page per input in order, and
when a page's browser render fails (truthy render error) the returned
entry is its HTTP-phase result unchanged — the render error is never
reported; its error, if any, is the HTTP-phase one. -/
theorem fetch_all_render_failure_keeps_http (o : FetchOracles)
    (pages : List DiscoveredPage) :
    (fetch_all o pages).length = pages.length ∧
    ∀ i, pyTruthyOpt (render_one o (pages.getD i default_page)).error = true →
      (fetch_all o pages).getD i default_extracted =
        (pages.map (http_fetch_and_extract o)).getD i default_extracted := by
  refine ⟨fetch_all_length o pages, ?_⟩
  intro i hi
  unfold fetch_all
  dsimp only
  split
  · rfl
  · unfold playwright_fetch_batch
    rw [List.map_map, zip_map_self]
    apply merge_foldl_getD
    intro p hp hpi
    obtain ⟨j, hj, rfl⟩ := List.mem_map.mp hp
    dsimp only [Function.comp] at hpi ⊢
    subst hpi
    exact hi

/-- Witness for C2 (amended) at the five-page scenario: `u4`'s render
fails and its output entry is exactly its HTTP-phase result. -/
theorem fetch_all_render_failure_keeps_http_witness :
    (fetch_all exOracles5 exPages5).getD 3 default_extracted =
      (exPages5.map (http_fetch_and_extract exOracles5)).getD 3 default_extracted :=
  (fetch_all_render_failure_keeps_http exOracles5 exPages5).2 3 (by decide)

/-- The loop invariants of `LinkCrawler.crawl`: the visited log stays
duplicate-free, the discovered URLs are a sublist of it, the discovered
count never exceeds `max_urls`, and link extraction only ever ran at
depths below `max_depth`. -/
theorem crawlLoop_invariants (cfg : CrawlConfig)
    (extractLinks : List Char → List (List Char))
    (base_domain : List Char) (disallowed : List (List Char)) :
    ∀ (fuel : Nat) (queue : List (List Char × Nat)) (visited : List (List Char))
      (discovered : List DiscoveredPage) (expanded : List (List Char × Nat)),
      visited.Nodup →
      (discovered.map (fun p => p.url)).Sublist visited →
      discovered.length ≤ cfg.max_urls →
      (∀ p ∈ expanded, p.2 < cfg.max_depth) →
      (crawlLoop cfg extractLinks base_domain disallowed fuel queue visited
          discovered expanded).visited.Nodup ∧
      ((crawlLoop cfg extractLinks base_domain disallowed fuel queue visited
          discovered expanded).discovered.map (fun p => p.url)).Sublist
        (crawlLoop cfg extractLinks base_domain disallowed fuel queue visited
          discovered expanded).visited ∧
      (crawlLoop cfg extractLinks base_domain disallowed fuel queue visited
          discovered expanded).discovered.length ≤ cfg.max_urls ∧
      (∀ p ∈ (crawlLoop cfg extractLinks base_domain disallowed fuel queue visited
          discovered expanded).expanded, p.2 < cfg.max_depth) := by
  intro fuel
  induction fuel with
  | zero =>
    intro queue visited discovered expanded h1 h2 h3 h4
    exact ⟨h1, h2, h3, h4⟩
  | succ n ih =>
    intro queue visited discovered expanded h1 h2 h3 h4
    match queue with
    | [] => exact ⟨h1, h2, h3, h4⟩
    | (url, depth) :: rest =>
      by_cases hcap : cfg.max_urls ≤ discovered.length
      · simp only [crawlLoop, if_pos hcap]
        exact ⟨h1, h2, h3, h4⟩
      · simp only [crawlLoop, if_neg hcap]
        by_cases hvis : visited.contains (normalize_url url) = true
        · simp only [hvis, if_pos]
          exact ih rest visited discovered expanded h1 h2 h3 h4
        · simp only [hvis, if_neg, Bool.false_eq_true, not_false_iff]
          have hnotmem : normalize_url url ∉ visited := by
            simpa using (Bool.not_eq_true _ ▸ hvis : visited.contains (normalize_url url) = false)
          have h1' : (visited ++ [normalize_url url]).Nodup := by
            rw [List.nodup_append]
            refine ⟨h1, List.nodup_singleton _, ?_⟩
            intro a ha hb
            rw [List.mem_singleton] at hb
            exact hnotmem (hb ▸ ha)
          have h2w : (discovered.map (fun p => p.url)).Sublist
              (visited ++ [normalize_url url]) :=
            h2.trans (List.sublist_append_left _ _)
          by_cases hskip : should_skip (normalize_url url) base_domain disallowed = true
          · simp only [hskip, if_pos]
            exact ih rest _ discovered expanded h1' h2w h3 h4
          · simp only [hskip, if_neg, Bool.false_eq_true, not_false_iff]
            have h2' : ((discovered ++
                [(⟨normalize_url url, "crawl".data, depth⟩ : DiscoveredPage)]).map
                  (fun p => p.url)).Sublist
                (visited ++ [normalize_url url]) := by
              rw [List.map_append]
              exact h2.append (List.Sublist.refl _)
            have h3' : (discovered ++
                [(⟨normalize_url url, "crawl".data, depth⟩ : DiscoveredPage)]).length ≤
                cfg.max_urls := by
              rw [List.length_append, List.length_singleton]
              omega
            by_cases hdepth : depth < cfg.max_depth
            · simp only [hdepth, if_pos]
              refine ih _ _ _ _ h1' h2' h3' ?_
              intro p hp
              rcases List.mem_append.mp hp with hold | hnew
              · exact h4 p hold
              · rw [List.mem_singleton] at hnew
                subst hnew
                exact hdepth
            · simp only [hdepth, if_neg, not_false_iff]
              exact ih _ _ _ _ h1' h2' h3' h4

/-- C5: for every configuration, link oracle and fuel, `crawl` discovers
at most `max_urls` pages, the discovered normalized URLs are pairwise
distinct (the visited log is duplicate-free: no normalized URL is
processed twice), and link extraction never ran on a page whose depth had
reached `max_depth`. -/
theorem crawl_bfs_invariants (cfg : CrawlConfig)
    (extractLinks : List Char → List (List Char))
    (start_url : List Char) (disallowed : List (List Char)) (fuel : Nat) :
    (crawl cfg extractLinks start_url disallowed fuel).discovered.length ≤
      cfg.max_urls ∧
    ((crawl cfg extractLinks start_url disallowed fuel).discovered.map
      (fun p => p.url)).Nodup ∧
    (crawl cfg extractLinks start_url disallowed fuel).visited.Nodup ∧
    ∀ p ∈ (crawl cfg extractLinks start_url disallowed fuel).expanded,
      p.2 < cfg.max_depth := by
  obtain ⟨h1, h2, h3, h4⟩ := crawlLoop_invariants cfg extractLinks
    (urlparse start_url).netloc disallowed fuel [(start_url, 0)] [] [] []
    List.nodup_nil (List.nil_sublist _) (Nat.zero_le _) (by intro p hp; cases hp)
  exact ⟨h3, h2.nodup h1, h1, h4⟩

/-! Helper lemmas for the sitemap claims. -/

theorem dropWhile_eq_self_of_all_neg {p : Char → Bool} (cs : List Char)
    (h : ∀ c ∈ cs, p c = false) : cs.dropWhile p = cs := by
  cases cs with
  | nil => rfl
  | cons c t =>
    rw [List.dropWhile_cons_of_neg]
    simp [h c (List.mem_cons_self _ _)]

theorem pyStrip_eq_self (cs : List Char)
    (h : ∀ c ∈ cs, isPySpace c = false) : pyStrip cs = cs := by
  unfold pyStrip
  rw [dropWhile_eq_self_of_all_neg cs h,
    dropWhile_eq_self_of_all_neg cs.reverse (fun c hc => h c (List.mem_reverse.mp hc)),
    List.reverse_reverse]

theorem mkUrl600_no_space (i : Nat) : ∀ c ∈ mkUrl600 i, isPySpace c = false := by
  intro c hc
  unfold mkUrl600 at hc
  rcases List.mem_append.mp hc with hfix | hrep
  · fin_cases hfix <;> decide
  · rw [List.eq_of_mem_replicate hrep]
    decide

theorem mkUrl600_injective : Function.Injective mkUrl600 := by
  intro i j h
  unfold mkUrl600 at h
  have := List.append_cancel_left h
  have hl := congrArg List.length this
  simpa using hl

theorem parse_urlset_map600 (l : List Nat) :
    parse_urlset (l.map (fun i => (⟨some (mkUrl600 i), none⟩ : UrlTag))) =
      l.map (fun i => (⟨mkUrl600 i, none⟩ : SitemapEntry)) := by
  induction l with
  | nil => rfl
  | cons i t ih =>
    rw [List.map_cons, List.map_cons]
    unfold parse_urlset
    have hne : mkUrl600 i ≠ [] := by
      unfold mkUrl600
      simp
    have hstrip : pyStrip (mkUrl600 i) = mkUrl600 i :=
      pyStrip_eq_self _ (mkUrl600_no_space i)
    have hpre : ("http://".data).isPrefixOf (mkUrl600 i) = true := by
      rw [List.isPrefixOf_iff_prefix]
      refine ⟨("a/".data) ++ List.replicate i 'x', ?_⟩
      unfold mkUrl600
      rw [← List.append_assoc]
      rfl
    simp only [hne, if_neg, hstrip, hpre, Bool.true_or, Bool.not_true,
      Bool.false_eq_true, not_false_iff, if_false]
    simp [ih]

theorem dictDedup_eq_self_of_nodup_aux :
    ∀ (es acc : List SitemapEntry),
      (((acc ++ es).map (fun e => e.url)).Nodup) →
      es.foldl
        (fun acc e =>
          if acc.any (fun x => x.url = e.url) then
            acc.map (fun x => if x.url = e.url then e else x)
          else acc ++ [e]) acc = acc ++ es := by
  intro es
  induction es with
  | nil => intro acc _; simp
  | cons e rest ih =>
    intro acc hnd
    have hnotin : e.url ∉ acc.map (fun x => x.url) := by
      intro hmem
      rw [List.map_append, List.nodup_append] at hnd
      exact hnd.2.2 hmem (by simp)
    have hany : (acc.any (fun x => decide (x.url = e.url))) = false := by
      rw [Bool.eq_false_iff]
      intro htrue
      obtain ⟨x, hx, hxe⟩ := List.any_eq_true.mp htrue
      exact hnotin (List.mem_map.mpr ⟨x, hx, of_decide_eq_true hxe⟩)
    simp only [List.foldl_cons, hany, Bool.false_eq_true, if_false]
    have := ih (acc ++ [e]) (by simpa using hnd)
    simpa using this

theorem dictDedup_eq_self_of_nodup (es : List SitemapEntry)
    (h : (es.map (fun e => e.url)).Nodup) : dictDedupByUrl es = es := by
  have := dictDedup_eq_self_of_nodup_aux es [] (by simpa using h)
  simpa [dictDedupByUrl] using this

theorem dictDedup_keys_aux :
    ∀ (es acc : List SitemapEntry),
      (es.foldl
        (fun acc e =>
          if acc.any (fun x => x.url = e.url) then
            acc.map (fun x => if x.url = e.url then e else x)
          else acc ++ [e]) acc).map (fun e => e.url) =
      es.foldl
        (fun acc2 e => if acc2.contains e.url then acc2 else acc2 ++ [e.url])
        (acc.map (fun e => e.url)) := by
  intro es
  induction es with
  | nil => intro acc; rfl
  | cons e rest ih =>
    intro acc
    simp only [List.foldl_cons]
    rw [ih]
    congr 1
    by_cases hm : e.url ∈ acc.map (fun x => x.url)
    · have hany : (acc.any (fun x => decide (x.url = e.url))) = true := by
        obtain ⟨x, hx, hxe⟩ := List.mem_map.mp hm
        exact List.any_eq_true.mpr ⟨x, hx, by simpa using hxe⟩
      have hcon : (acc.map (fun x => x.url)).contains e.url = true := by
        simpa using hm
      simp only [hany, if_true, hcon]
      rw [List.map_map]
      apply List.map_congr_left
      intro x _
      by_cases hxe : x.url = e.url
      · simp [hxe]
      · simp [hxe]
    · have hany : (acc.any (fun x => decide (x.url = e.url))) = false := by
        rw [Bool.eq_false_iff]
        intro htrue
        obtain ⟨x, hx, hxe⟩ := List.any_eq_true.mp htrue
        exact hm (List.mem_map.mpr ⟨x, hx, of_decide_eq_true hxe⟩)
      have hcon : (acc.map (fun x => x.url)).contains e.url = false := by
        simpa using hm
      rw [if_neg (by rw [hany]; simp), if_neg (by rw [hcon]; simp)]
      simp

/-- The key order of the Python dict dedup: first-seen URL order. -/
theorem dictDedup_keys (es : List SitemapEntry) :
    (dictDedupByUrl es).map (fun e => e.url) =
      firstSeenKeys (es.map (fun e => e.url)) := by
  unfold dictDedupByUrl firstSeenKeys
  rw [dictDedup_keys_aux es [], List.foldl_map]
  rfl

theorem dictDedup_last_aux :
    ∀ (todo acc done : List SitemapEntry),
      (∀ e ∈ acc, done.reverse.find? (fun x => decide (x.url = e.url)) = some e) →
      ∀ e ∈ todo.foldl
        (fun acc e =>
          if acc.any (fun x => x.url = e.url) then
            acc.map (fun x => if x.url = e.url then e else x)
          else acc ++ [e]) acc,
        (done ++ todo).reverse.find? (fun x => decide (x.url = e.url)) = some e := by
  intro todo
  induction todo with
  | nil =>
    intro acc done h e he
    simpa using h e he
  | cons n rest ih =>
    intro acc done h e he
    have hstep : (done ++ n :: rest) = (done ++ [n]) ++ rest := by simp
    rw [hstep]
    have hrev : (done ++ [n]).reverse = n :: done.reverse := by simp
    by_cases hany : (acc.any (fun y => decide (y.url = n.url))) = true
    · have he' := he
      simp only [List.foldl_cons] at he'
      rw [if_pos hany] at he'
      refine ih _ (done ++ [n]) ?_ e he'
      intro x hx
      rw [hrev]
      obtain ⟨y, hy, hyx⟩ := List.mem_map.mp hx
      by_cases hyn : y.url = n.url
      · rw [if_pos hyn] at hyx
        subst hyx
        rw [List.find?_cons_of_pos _ (by simp)]
      · rw [if_neg hyn] at hyx
        subst hyx
        rw [List.find?_cons_of_neg _ (by simpa using fun hh => hyn hh.symm)]
        exact h y hy
    · have he' := he
      simp only [List.foldl_cons] at he'
      rw [if_neg hany] at he'
      have hnone : ∀ y ∈ acc, y.url ≠ n.url := by
        intro y hy hyn
        exact hany (List.any_eq_true.mpr ⟨y, hy, by simpa using hyn⟩)
      refine ih _ (done ++ [n]) ?_ e he'
      intro x hx
      rw [hrev]
      rcases List.mem_append.mp hx with hxa | hxn
      · rw [List.find?_cons_of_neg _
          (by simpa using fun hh => hnone x hxa hh.symm)]
        exact h x hxa
      · rw [List.mem_singleton] at hxn
        subst hxn
        rw [List.find?_cons_of_pos _ (by simp)]

/-- The value kept by the Python dict dedup for each URL is the entry of
its last occurrence. -/
theorem dictDedup_last (es : List SitemapEntry) (e : SitemapEntry)
    (he : e ∈ dictDedupByUrl es) :
    es.reverse.find? (fun x => decide (x.url = e.url)) = some e := by
  have := dictDedup_last_aux es [] [] (by intro x hx; cases hx) e he
  simpa using this

theorem sitemap600_length :
    (sitemap_parse exFetch600 ("http://a".data) [("root".data)]).entries.length =
      500 := by
  have hA : parse_sitemap_fuel exFetch600 2 ("s1".data) =
      ((List.range 600).take 300).map (fun i => (⟨mkUrl600 i, none⟩ : SitemapEntry)) := by
    have h0 : parse_sitemap_fuel exFetch600 2 ("s1".data) =
        parse_urlset (tags600.take 300) := rfl
    rw [h0, show tags600 =
      (List.range 600).map (fun i => (⟨some (mkUrl600 i), none⟩ : UrlTag)) from rfl,
      ← List.map_take]
    exact parse_urlset_map600 _
  have hB : parse_sitemap_fuel exFetch600 2 ("s2".data) =
      ((List.range 600).drop 300).map (fun i => (⟨mkUrl600 i, none⟩ : SitemapEntry)) := by
    have h0 : parse_sitemap_fuel exFetch600 2 ("s2".data) =
        parse_urlset (tags600.drop 300) := rfl
    rw [h0, show tags600 =
      (List.range 600).map (fun i => (⟨some (mkUrl600 i), none⟩ : UrlTag)) from rfl,
      ← List.map_drop]
    exact parse_urlset_map600 _
  have hstep : ∀ (sub : List Char → List SitemapEntry) (t : List Char)
      (rest : List SitemapTag) (entries : List SitemapEntry), t ≠ [] →
      parse_index_go sub (⟨some t⟩ :: rest) entries =
        (if MAX_SITEMAP_ENTRIES ≤ (entries ++ sub (pyStrip t)).length then
          entries ++ sub (pyStrip t)
        else parse_index_go sub rest (entries ++ sub (pyStrip t))) := by
    intro sub t rest entries hne
    conv_lhs => rw [parse_index_go]
    dsimp only
    rw [if_neg hne]
  have hroot : parse_sitemap_fuel exFetch600 3 ("root".data) =
      (List.range 600).map (fun i => (⟨mkUrl600 i, none⟩ : SitemapEntry)) := by
    have h0 : parse_sitemap_fuel exFetch600 3 ("root".data) =
        parse_index_go (fun u => parse_sitemap_fuel exFetch600 2 u)
          [⟨some ("s1".data)⟩, ⟨some ("s2".data)⟩] [] := rfl
    rw [h0, hstep _ _ _ _ (by decide),
      show pyStrip ("s1".data) = ("s1".data) from rfl, hA, List.nil_append]
    rw [if_neg (by simp [MAX_SITEMAP_ENTRIES])]
    rw [hstep _ _ _ _ (by decide),
      show pyStrip ("s2".data) = ("s2".data) from rfl, hB]
    rw [if_pos (by simp [MAX_SITEMAP_ENTRIES])]
    rw [← List.map_append, List.take_append_drop]
  have hnodup : (((List.range 600).map
      (fun i => (⟨mkUrl600 i, none⟩ : SitemapEntry))).map (fun e => e.url)).Nodup := by
    rw [List.map_map]
    exact (List.nodup_map_iff_inj_on (List.nodup_range 600)).mpr
      (fun x _ y _ h => mkUrl600_injective h)
  unfold sitemap_parse
  dsimp only
  rw [if_neg (by simp)]
  have hloop : sitemap_try_loop exFetch600 [("root".data)] [] =
      ((List.range 600).map (fun i => (⟨mkUrl600 i, none⟩ : SitemapEntry)),
        some ("root".data)) := by
    unfold sitemap_try_loop
    have hps : parse_sitemap exFetch600 ("root".data) 0 =
        parse_sitemap_fuel exFetch600 3 ("root".data) := rfl
    rw [hps, hroot]
    rw [List.nil_append]
    rw [if_pos (by simp)]
  rw [hloop]
  dsimp only
  rw [dictDedup_eq_self_of_nodup _ hnodup]
  simp [MAX_SITEMAP_ENTRIES]

/-- C3 counterexample: on a urlset holding two entries for the same URL
with priorities `0.5` then `0.9`, `parse` keeps the position of the first
occurrence but the entry of the last (`0.9`): the first occurrence does
not win. -/
theorem sitemap_dedup_last_occurrence_wins :
    (sitemap_parse exFetchDup ("http://a.com".data) [("s".data)]).entries =
      [⟨"http://a.com/p".data, some ("0.9".data)⟩] ∧
    (sitemap_parse exFetchDup ("http://a.com".data) [("s".data)]).entries ≠
      [⟨"http://a.com/p".data, some ("0.5".data)⟩] := by
  refine ⟨by decide, by decide⟩

/-- C3 (amended): `parse` always returns at most 500 entries; the
deduplication keeps the URL order of first occurrences but, for a
duplicated URL, the entry of its last occurrence; on a two-level index
whose leaves hold 600 distinct URLs it returns exactly 500 entries. -/
theorem sitemap_parse_cap_and_dedup :
    (∀ (fetch : List Char → Option SitemapDoc) (base_url : List Char)
        (sitemap_urls : List (List Char)),
      (sitemap_parse fetch base_url sitemap_urls).entries.length ≤
        MAX_SITEMAP_ENTRIES) ∧
    (∀ es : List SitemapEntry,
      (dictDedupByUrl es).map (fun e => e.url) =
        firstSeenKeys (es.map (fun e => e.url))) ∧
    (∀ (es : List SitemapEntry) (e : SitemapEntry), e ∈ dictDedupByUrl es →
      es.reverse.find? (fun x => decide (x.url = e.url)) = some e) ∧
    (sitemap_parse exFetch600 ("http://a".data) [("root".data)]).entries.length =
      500 := by
  refine ⟨?_, ?_, ?_, ?_⟩
  · intro fetch base_url sitemap_urls
    unfold sitemap_parse
    dsimp only
    exact List.length_take_le _ _
  · exact dictDedup_keys
  · exact dictDedup_last
  · exact sitemap600_length

/-- Witness for C3 (amended): the last-occurrence clause applied at a
concrete one-entry list. -/
theorem sitemap_parse_cap_and_dedup_witness :
    ([(⟨"u".data, none⟩ : SitemapEntry)]).reverse.find?
      (fun x => decide (x.url = (⟨"u".data, none⟩ : SitemapEntry).url)) =
      some ⟨"u".data, none⟩ :=
  sitemap_parse_cap_and_dedup.2.2.1 [⟨"u".data, none⟩] ⟨"u".data, none⟩ (by decide)

/-! Helper lemmas for the robots.txt claim: the four directive keys start
with distinct letters, so a line matches at most one of them. -/

theorem isPrefixOf_head_conflict {c1 c2 : Char} {t1 t2 l : List Char}
    (hne : c1 ≠ c2) (h : (c1 :: t1).isPrefixOf l = true) :
    (c2 :: t2).isPrefixOf l = false := by
  cases l with
  | nil => simp [List.isPrefixOf] at h
  | cons a l' =>
    simp only [List.isPrefixOf, Bool.and_eq_true, beq_iff_eq] at h
    simp only [List.isPrefixOf, Bool.and_eq_false_iff]
    left
    rw [beq_eq_false_iff_ne]
    intro hh
    exact hne (h.1.trans hh.symm)

theorem directiveArg_prefix {key line v : List Char}
    (h : directiveArg key line = some v) :
    (pyLower key).isPrefixOf (pyLower line) = true := by
  unfold directiveArg at h
  split at h
  · rename_i hc
    exact hc.1
  · cases h

theorem directiveArg_eq_none {key line : List Char}
    (h : (pyLower key).isPrefixOf (pyLower line) = false) :
    directiveArg key line = none := by
  unfold directiveArg
  rw [if_neg]
  intro hc
  rw [h] at hc
  exact Bool.false_ne_true hc.1

theorem disallowArg_prefix {line v : List Char} (h : disallowArg line = some v) :
    ("disallow:".data).isPrefixOf (pyLower line) = true := by
  unfold disallowArg at h
  split at h
  · rename_i hc
    exact (show pyLower ("Disallow:".data) = "disallow:".data from rfl) ▸ hc
  · cases h

theorem disallowArg_eq_none {line : List Char}
    (h : ("disallow:".data).isPrefixOf (pyLower line) = false) :
    disallowArg line = none := by
  unfold disallowArg
  rw [if_neg]
  intro hc
  rw [show pyLower ("Disallow:".data) = "disallow:".data from rfl, h] at hc
  exact Bool.false_ne_true hc

theorem crawlDelayArg_eq_none {line : List Char}
    (h : ("crawl-delay:".data).isPrefixOf (pyLower line) = false) :
    crawlDelayArg line = none := by
  unfold crawlDelayArg
  rw [if_neg]
  intro hc
  rw [show pyLower ("Crawl-delay:".data) = "crawl-delay:".data from rfl, h] at hc
  exact Bool.false_ne_true hc

/-- On an empty line or a `#` comment line, no directive matches. -/
theorem directive_none_of_comment (line : List Char)
    (h : line = [] ∨ line.head? = some '#') :
    directiveArg ("Sitemap:".data) line = none ∧
    directiveArg ("User-agent:".data) line = none ∧
    disallowArg line = none ∧ crawlDelayArg line = none := by
  have hpre : ∀ (c : Char) (t : List Char), c ≠ '#' →
      (c :: t).isPrefixOf (pyLower line) = false := by
    intro c t hc
    rcases h with rfl | hhd
    · rfl
    · cases line with
      | nil => simp at hhd
      | cons a l' =>
        have ha : a = '#' := by simpa using hhd
        subst ha
        simp only [pyLower, List.map_cons, List.isPrefixOf, Bool.and_eq_false_iff]
        left
        rw [beq_eq_false_iff_ne]
        intro hh
        exact hc hh
  refine ⟨directiveArg_eq_none (hpre 's' _ (by decide)),
    directiveArg_eq_none (hpre 'u' _ (by decide)),
    disallowArg_eq_none (hpre 'd' _ (by decide)),
    crawlDelayArg_eq_none (hpre 'c' _ (by decide))⟩

/-- `robotsSpecBlocks` ignores a line that matches none of the
block-relevant directives. -/
theorem robotsSpecBlocks_skip (l : List Char) (ls : List (List Char)) (a : Bool)
    (hua : directiveArg ("User-agent:".data) l = none)
    (hd : disallowArg l = none) (hcd : crawlDelayArg l = none) :
    robotsSpecBlocks (l :: ls) a = robotsSpecBlocks ls a := by
  simp [robotsSpecBlocks, hua, hd, hcd]

/-- A `Sitemap:` line matches none of the block-relevant directives. -/
theorem sitemap_line_conflicts {line url : List Char}
    (hs : directiveArg ("Sitemap:".data) line = some url) :
    directiveArg ("User-agent:".data) line = none ∧
    disallowArg line = none ∧ crawlDelayArg line = none := by
  have hpre : (('s' : Char) :: ("itemap:".data)).isPrefixOf (pyLower line) = true :=
    directiveArg_prefix hs
  exact ⟨directiveArg_eq_none (isPrefixOf_head_conflict (by decide) hpre),
    disallowArg_eq_none (isPrefixOf_head_conflict (by decide) hpre),
    crawlDelayArg_eq_none (isPrefixOf_head_conflict (by decide) hpre)⟩

/-- The line loop of `_parse_content` computes, from any intermediate
state, the spec-side decomposition: sitemap lines collected statelessly,
disallows and the first crawl delay from the block-scoped pass. -/
theorem robotsLoop_eq_spec :
    ∀ (lines : List (List Char)) (sitemaps disallowed : List (List Char))
      (delay : Option (List Char)) (applies : Bool),
      robotsLoop lines sitemaps disallowed delay applies =
        ⟨sitemaps ++ (lines.map pyStrip).filterMap (fun l =>
            match directiveArg ("Sitemap:".data) l with
            | some url => if url ≠ [] then some url else none
            | none => none),
          (match delay with
           | some v => some v
           | none => (robotsSpecBlocks (lines.map pyStrip) applies).2),
          disallowed ++ (robotsSpecBlocks (lines.map pyStrip) applies).1⟩ := by
  intro lines
  induction lines with
  | nil =>
    intro sitemaps disallowed delay applies
    simp only [robotsLoop, List.map_nil, List.filterMap_nil, List.append_nil,
      robotsSpecBlocks]
    cases delay <;> rfl
  | cons rawLine rest ih =>
    intro sitemaps disallowed delay applies
    rw [robotsLoop, List.map_cons]
    by_cases hcomment : pyStrip rawLine = [] ∨ (pyStrip rawLine).head? = some '#'
    · rw [if_pos hcomment, ih]
      obtain ⟨hs, hua, hd, hcd⟩ := directive_none_of_comment _ hcomment
      rw [List.filterMap_cons, hs, robotsSpecBlocks_skip _ _ _ hua hd hcd]
    · rw [if_neg hcomment]
      cases hs : directiveArg ("Sitemap:".data) (pyStrip rawLine) with
      | some url =>
        obtain ⟨hua, hd, hcd⟩ := sitemap_line_conflicts hs
        simp only [hs]
        rw [ih, List.filterMap_cons, hs,
          robotsSpecBlocks_skip _ _ _ hua hd hcd]
        by_cases hurl : url ≠ [] <;>
          simp [hurl, List.append_assoc]
      | none =>
        cases hua : directiveArg ("User-agent:".data) (pyStrip rawLine) with
        | some agent =>
          simp only [hs, hua]
          rw [ih, List.filterMap_cons, hs]
          have hag : (decide (pyLower agent = "*".data ∨
              pyLower agent = "spongebot".data)) = agentApplies agent := by
            unfold agentApplies
            rw [Bool.decide_or]
          simp only [robotsSpecBlocks, hua, hag]
        | none =>
          cases happ : applies with
          | false =>
            simp only [hs, hua, happ, Bool.not_false, if_true]
            rw [ih, List.filterMap_cons, hs]
            simp only [robotsSpecBlocks, hua, if_neg (by simp : ¬(false = true))]
          | true =>
            simp only [hs, hua, happ, Bool.not_true, Bool.false_eq_true,
              if_false]
            cases hd : disallowArg (pyStrip rawLine) with
            | some path =>
              simp only [hd]
              rw [ih, List.filterMap_cons, hs]
              simp only [robotsSpecBlocks, hua, hd, if_pos rfl]
              by_cases hpath : path ≠ [] <;>
                simp [hpath, List.append_assoc]
            | none =>
              cases hcd : crawlDelayArg (pyStrip rawLine) with
              | some v =>
                simp only [hd, hcd]
                rw [ih, List.filterMap_cons, hs]
                simp only [robotsSpecBlocks, hua, hd, hcd, if_pos rfl]
                cases delay <;> simp
              | none =>
                simp only [hd, hcd]
                rw [ih, List.filterMap_cons, hs,
                  robotsSpecBlocks_skip _ _ _ hua hd hcd]

/-- C8: `_parse_content` equals its spec-side decomposition: every
`Sitemap:` line's URL is collected regardless of the active block;
`User-agent:` opens a block applying iff its token is `*` or `spongebot`
case-insensitively; `Disallow:` values are recorded only when nonempty
inside an applicable block; `Crawl-delay:` is honored only inside an
applicable block with the first captured numeral winning. -/
theorem robots_parse_content_correct (content : List Char) :
    robots_parse_content content = robots_parse_content_spec content := by
  unfold robots_parse_content robots_parse_content_spec
  rw [robotsLoop_eq_spec]
  simp

/-! Helper lemmas for the URL-normalizer claim. -/

theorem takeWhile_append_cons {p : Char → Bool} (xs : List Char) (y : Char)
    (ys : List Char) (hxs : ∀ x ∈ xs, p x = true) (hy : p y = false) :
    (xs ++ y :: ys).takeWhile p = xs := by
  induction xs with
  | nil => simp [List.takeWhile_cons, hy]
  | cons a t ih =>
    rw [List.cons_append, List.takeWhile_cons_of_pos (hxs a (List.mem_cons_self _ _))]
    rw [ih (fun x hx => hxs x (List.mem_cons_of_mem _ hx))]

theorem dropWhile_append_cons {p : Char → Bool} (xs : List Char) (y : Char)
    (ys : List Char) (hxs : ∀ x ∈ xs, p x = true) (hy : p y = false) :
    (xs ++ y :: ys).dropWhile p = y :: ys := by
  induction xs with
  | nil => simp [List.dropWhile_cons, hy]
  | cons a t ih =>
    rw [List.cons_append, List.dropWhile_cons_of_pos (hxs a (List.mem_cons_self _ _))]
    exact ih (fun x hx => hxs x (List.mem_cons_of_mem _ hx))

theorem ne_of_mem_takeWhile_ne {ch c : Char} {l : List Char}
    (h : c ∈ l.takeWhile (fun x => x ≠ ch)) : c ≠ ch := by
  have := List.mem_takeWhile_imp h
  simpa using this

theorem ne_of_not_contains {l : List Char} {c ch : Char} (hc : c ∈ l)
    (h : ¬ l.contains ch = true) : c ≠ ch := by
  intro heq
  exact h (List.elem_eq_true_of_mem (heq ▸ hc))

theorem contains_eq_false_of_not_mem {l : List Char} {c : Char} (h : c ∉ l) :
    l.contains c = false := by
  rw [Bool.eq_false_iff]
  intro ht
  exact h (by simpa using ht)

theorem splitScheme_snd_subset (cs : List Char) : (splitScheme cs).2 ⊆ cs := by
  unfold splitScheme
  dsimp only
  split
  · rename_i c t r heq1 heq2
    split
    · intro x hx
      have hx2 : x ∈ cs.dropWhile isSchemeChar := by
        rw [heq2]
        exact List.mem_cons_of_mem _ hx
      exact List.dropWhile_subset _ hx2
    · exact fun x hx => hx
  · exact fun x hx => hx

theorem urlsplit_netloc_no_delim (u : List Char) :
    ∀ c ∈ (urlsplit u).netloc, notNetlocDelim c = true := by
  unfold urlsplit
  dsimp only
  split
  · intro c hc
    exact List.mem_takeWhile_imp hc
  · intro c hc
    cases hc

theorem urlsplit_path_no_qmark (u : List Char) :
    ∀ c ∈ (urlsplit u).path, c ≠ '?' := by
  unfold urlsplit
  dsimp only
  split <;> split <;> split <;> intro c hc <;>
    first
    | exact ne_of_mem_takeWhile_ne hc
    | (rename_i hq; exact ne_of_not_contains hc hq)

theorem urlsplit_path_no_hash (u : List Char) :
    ∀ c ∈ (urlsplit u).path, c ≠ '#' := by
  unfold urlsplit
  dsimp only
  split <;> split <;> split <;> intro c hc <;>
    first
    | exact ne_of_mem_takeWhile_ne (List.takeWhile_subset _ hc)
    | exact ne_of_mem_takeWhile_ne hc
    | (rename_i hf hq; exact ne_of_not_contains (List.takeWhile_subset _ hc) hf)
    | (rename_i hf hq; exact ne_of_not_contains hc hf)
    | (rename_i hf; exact ne_of_not_contains (List.takeWhile_subset _ hc) hf)
    | (rename_i hf; exact ne_of_not_contains hc hf)

theorem urlsplit_query_no_hash (u : List Char) :
    ∀ c ∈ (urlsplit u).query, c ≠ '#' := by
  unfold urlsplit
  dsimp only
  split <;> split <;> split <;> intro c hc <;>
    first
    | cases hc
    | exact ne_of_mem_takeWhile_ne
        (List.takeWhile_subset _ (List.dropWhile_subset _ (List.drop_subset _ _ hc)))
    | exact ne_of_mem_takeWhile_ne
        (List.dropWhile_subset _ (List.drop_subset _ _ hc))
    | (rename_i hf hq; exact ne_of_not_contains
        (List.takeWhile_subset _ (List.dropWhile_subset _ (List.drop_subset _ _ hc))) hf)
    | (rename_i hf hq; exact ne_of_not_contains
        (List.dropWhile_subset _ (List.drop_subset _ _ hc)) hf)
    | (rename_i hf; exact ne_of_not_contains
        (List.takeWhile_subset _ (List.dropWhile_subset _ (List.drop_subset _ _ hc))) hf)
    | (rename_i hf; exact ne_of_not_contains
        (List.dropWhile_subset _ (List.drop_subset _ _ hc)) hf)

/-- Every character of the netloc, path or query of `urlsplit u` comes
from the sanitized input, hence is not an unsafe URL byte. -/
theorem urlsplit_components_clean (u : List Char) :
    (∀ c ∈ (urlsplit u).netloc, isUnsafeUrlByte c = false) ∧
    (∀ c ∈ (urlsplit u).path, isUnsafeUrlByte c = false) ∧
    (∀ c ∈ (urlsplit u).query, isUnsafeUrlByte c = false) := by
  have hsan : ∀ c ∈ sanitizeUrl u, isUnsafeUrlByte c = false := by
    intro c hc
    unfold sanitizeUrl at hc
    have := (List.mem_filter.mp hc).2
    simpa using this
  have hsub : ((urlsplit u).netloc ⊆ sanitizeUrl u) ∧
      ((urlsplit u).path ⊆ sanitizeUrl u) ∧
      ((urlsplit u).query ⊆ sanitizeUrl u) := by
    have hs2 := splitScheme_snd_subset (sanitizeUrl u)
    unfold urlsplit
    dsimp only
    split <;> split <;> split <;> refine ⟨?_, ?_, ?_⟩ <;> intro c hc <;>
      dsimp only at hc <;>
      (repeat
        first
        | exact (List.not_mem_nil _ hc).elim
        | exact hs2 hc
        | exact hc
        | (replace hc := List.takeWhile_subset _ hc)
        | (replace hc := List.dropWhile_subset _ hc)
        | (replace hc := List.drop_subset _ _ hc))
  exact ⟨fun c hc => hsan c (hsub.1 hc), fun c hc => hsan c (hsub.2.1 hc),
    fun c hc => hsan c (hsub.2.2 hc)⟩

theorem dropWhile_shape (p : Char → Bool) (l : List Char) :
    l.dropWhile p = [] ∨ ∃ c t, l.dropWhile p = c :: t ∧ p c = false := by
  cases h : l.dropWhile p with
  | nil => exact Or.inl rfl
  | cons c t =>
    refine Or.inr ⟨c, t, rfl, ?_⟩
    have := List.head?_dropWhile_not p l
    rw [h] at this
    simpa using this

theorem dropWhile_dropWhile (p : Char → Bool) (l : List Char) :
    (l.dropWhile p).dropWhile p = l.dropWhile p := by
  rcases dropWhile_shape p l with h | ⟨c, t, h, hpc⟩
  · rw [h]
    rfl
  · rw [h, List.dropWhile_cons_of_neg (by simp [hpc])]

theorem rstripSlashes_idem (cs : List Char) :
    rstripSlashes (rstripSlashes cs) = rstripSlashes cs := by
  unfold rstripSlashes
  rw [List.reverse_reverse, dropWhile_dropWhile]

theorem rstripSlashes_isPrefix (cs : List Char) : rstripSlashes cs <+: cs := by
  unfold rstripSlashes
  have h1 : cs.reverse.dropWhile (fun c => c = '/') <:+ cs.reverse :=
    List.dropWhile_suffix _
  have h2 := List.reverse_prefix.mpr h1
  rwa [List.reverse_reverse] at h2

theorem head?_of_isPrefix_ne_nil {l1 l2 : List Char} (h : l1 <+: l2)
    (hne : l1 ≠ []) : l2.head? = l1.head? := by
  obtain ⟨t, rfl⟩ := h
  cases l1 with
  | nil => exact absurd rfl hne
  | cons a l' => rfl

/-- When a netloc was split off, the remaining path is empty or rooted. -/
theorem urlsplit_path_head (u : List Char) (h : (urlsplit u).netloc ≠ []) :
    (urlsplit u).path = [] ∨ (urlsplit u).path.head? = some '/' := by
  unfold urlsplit at h ⊢
  dsimp only at h ⊢
  by_cases hbr : ((splitScheme (sanitizeUrl u)).2.take 2 = ['/', '/'])
  · rw [if_pos hbr] at h ⊢
    dsimp only at h ⊢
    rcases dropWhile_shape notNetlocDelim ((splitScheme (sanitizeUrl u)).2.drop 2)
      with hnil | ⟨c, t, heq, hpc⟩
    · rw [hnil]
      simp
    · rw [heq]
      have hc3 : c = '/' ∨ c = '?' ∨ c = '#' := by
        unfold notNetlocDelim at hpc
        simp at hpc
        tauto
      rcases hc3 with rfl | rfl | rfl <;>
        split <;> split <;>
          first
          | (simp [List.takeWhile_cons]; done)
          | (rename_i h1 h2; simp [List.contains_cons, List.takeWhile_cons] at h1 h2; done)
  · rw [if_neg hbr] at h
    dsimp only at h
    exact absurd rfl h

/-- Parsing the string `normalize_url` rebuilds recovers its components:
an http(s) scheme, a delimiter-free netloc, a rooted path free of `#`,
`?` and control bytes, and a `#`-free query. -/
theorem urlsplit_reconstruct (S N P Q : List Char)
    (hS : S = ['h', 't', 't', 'p'] ∨ S = ['h', 't', 't', 'p', 's'])
    (hN : ∀ c ∈ N, notNetlocDelim c = true)
    (hNc : ∀ c ∈ N, isUnsafeUrlByte c = false)
    (hPhead : P.head? = some '/')
    (hPq : ∀ c ∈ P, c ≠ '?')
    (hPh : ∀ c ∈ P, c ≠ '#')
    (hPc : ∀ c ∈ P, isUnsafeUrlByte c = false)
    (hQh : ∀ c ∈ Q, c ≠ '#')
    (hQc : ∀ c ∈ Q, isUnsafeUrlByte c = false) :
    urlsplit (S ++ ':' :: '/' :: '/' :: (N ++ (P ++ if Q = [] then [] else '?' :: Q))) =
      ⟨S, N, P, [], Q, []⟩ := by
  obtain ⟨P', rfl⟩ : ∃ P', P = '/' :: P' := by
    cases P with
    | nil => exact absurd hPhead (by simp)
    | cons a t =>
      have ha : a = '/' := by simpa using hPhead
      exact ⟨t, by rw [ha]⟩
  have hslash : ('/' : Char) ∈ '/' :: P' := List.mem_cons_self _ _
  -- the tail after the scheme and the `//`
  set Qp : List Char := if Q = [] then [] else '?' :: Q with hQp
  set T : List Char := N ++ ('/' :: P' ++ Qp) with hT
  have hTmem : ∀ c ∈ T, isUnsafeUrlByte c = false := by
    intro c hc
    rw [hT] at hc
    rcases List.mem_append.mp hc with hcN | hcP
    · exact hNc c hcN
    · rcases List.mem_append.mp hcP with hcP2 | hcQ
      · exact hPc c hcP2
      · rw [hQp] at hcQ
        by_cases hQ0 : Q = []
        · simp [hQ0] at hcQ
        · rw [if_neg hQ0] at hcQ
          rcases List.mem_cons.mp hcQ with rfl | hcQ2
          · decide
          · exact hQc c hcQ2
  have hsan : sanitizeUrl (S ++ ':' :: '/' :: '/' :: T) = S ++ ':' :: '/' :: '/' :: T := by
    unfold sanitizeUrl
    have hmem : ∀ c ∈ S ++ ':' :: '/' :: '/' :: T, isUnsafeUrlByte c = false := by
      intro c hc
      rcases List.mem_append.mp hc with hcS | hcR
      · rcases hS with rfl | rfl <;> fin_cases hcS <;> decide
      · rcases List.mem_cons.mp hcR with rfl | hcR
        · decide
        · rcases List.mem_cons.mp hcR with rfl | hcR
          · decide
          · rcases List.mem_cons.mp hcR with rfl | hcR
            · decide
            · exact hTmem c hcR
    have hhead : (S ++ ':' :: '/' :: '/' :: T).dropWhile isC0OrSpace =
        S ++ ':' :: '/' :: '/' :: T := by
      rcases hS with rfl | rfl <;>
        exact List.dropWhile_cons_of_neg (by decide)
    rw [hhead, List.filter_eq_self.mpr (fun a ha => by simp [hmem a ha])]
  have htwS : (S ++ ':' :: '/' :: '/' :: T).takeWhile isSchemeChar = S := by
    refine takeWhile_append_cons S ':' _ ?_ (by decide)
    intro x hx
    rcases hS with rfl | rfl <;> fin_cases hx <;> decide
  have hdwS : (S ++ ':' :: '/' :: '/' :: T).dropWhile isSchemeChar =
      ':' :: '/' :: '/' :: T := by
    refine dropWhile_append_cons S ':' _ ?_ (by decide)
    intro x hx
    rcases hS with rfl | rfl <;> fin_cases hx <;> decide
  have hsp : splitScheme (S ++ ':' :: '/' :: '/' :: T) = (S, '/' :: '/' :: T) := by
    unfold splitScheme
    dsimp only
    rw [htwS, hdwS]
    rcases hS with rfl | rfl <;> rfl
  have htwN : T.takeWhile notNetlocDelim = N := by
    rw [hT, show ('/' :: P' ++ Qp) = '/' :: (P' ++ Qp) from rfl]
    exact takeWhile_append_cons N '/' _ hN (by decide)
  have hdwN : T.dropWhile notNetlocDelim = '/' :: (P' ++ Qp) := by
    rw [hT, show ('/' :: P' ++ Qp) = '/' :: (P' ++ Qp) from rfl]
    exact dropWhile_append_cons N '/' _ hN (by decide)
  have hnohash : ('/' :: (P' ++ Qp)).contains '#' = false := by
    apply contains_eq_false_of_not_mem
    intro hmem
    rcases List.mem_cons.mp hmem with heq | hmem2
    · exact absurd heq.symm (by decide)
    · rcases List.mem_append.mp hmem2 with hP2 | hQ2
      · exact hPh '#' (List.mem_cons_of_mem _ hP2) rfl
      · rw [hQp] at hQ2
        by_cases hQ0 : Q = []
        · simp [hQ0] at hQ2
        · rw [if_neg hQ0] at hQ2
          rcases List.mem_cons.mp hQ2 with heq2 | hQ3
          · exact absurd heq2.symm (by decide)
          · exact hQh '#' hQ3 rfl
  unfold urlsplit
  dsimp only
  rw [hsan, hsp]
  dsimp only
  rw [if_pos (show (('/' : Char) :: '/' :: T).take 2 = ['/', '/'] from rfl)]
  dsimp only
  rw [show (('/' : Char) :: '/' :: T).drop 2 = T from rfl, htwN, hdwN]
  rw [if_neg (show ¬(('/' :: (P' ++ Qp)).contains '#' = true) from fun h =>
    Bool.false_ne_true (hnohash ▸ h))]
  dsimp only
  by_cases hQ0 : Q = []
  · have hQpnil : Qp = [] := by rw [hQp, if_pos hQ0]
    rw [hQpnil, List.append_nil]
    have hnoq : (('/' : Char) :: P').contains '?' = false := by
      apply contains_eq_false_of_not_mem
      intro hmem
      exact hPq '?' hmem rfl
    rw [if_neg (show ¬((('/' : Char) :: P').contains '?' = true) from fun h =>
      Bool.false_ne_true (hnoq ▸ h))]
    dsimp only
    rw [hQ0]
  · have hQpcons : Qp = '?' :: Q := by rw [hQp, if_neg hQ0]
    rw [hQpcons]
    have hshape : ('/' : Char) :: (P' ++ '?' :: Q) = ('/' :: P') ++ '?' :: Q := rfl
    rw [hshape]
    have hq : ((('/' : Char) :: P') ++ '?' :: Q).contains '?' = true := by
      apply List.elem_eq_true_of_mem
      exact List.mem_append.mpr (Or.inr (List.mem_cons_self _ _))
    rw [if_pos hq]
    dsimp only
    rw [takeWhile_append_cons ('/' :: P') '?' Q
        (fun x hx => by simpa using hPq x hx) (by decide),
      dropWhile_append_cons ('/' :: P') '?' Q
        (fun x hx => by simpa using hPq x hx) (by decide)]
    rfl

/-- C4 counterexample: `_normalize_url` is NOT idempotent.  On
`https://a.com/x;p/` the first pass strips the trailing slash, which moves
the `;p` suffix into the last path segment; the second pass then splits it
off as urlparse params and drops it, giving a different URL. -/
theorem normalize_url_not_idempotent :
    normalize_url ("https://a.com/x;p/".data) = "https://a.com/x;p".data ∧
    normalize_url ("https://a.com/x;p".data) = "https://a.com/x".data ∧
    normalize_url (normalize_url ("https://a.com/x;p/".data)) ≠
      normalize_url ("https://a.com/x;p/".data) := by
  refine ⟨by decide, by decide, by decide⟩

/-- C4 (amended): `_normalize_url` strips the fragment and trailing
slashes and keeps the query (concrete instance), and it is idempotent on
every http/https URL with a nonempty host whose parsed path contains no
semicolon (the urlparse-params case of the counterexample excluded). -/
theorem normalize_url_strip_and_idempotent :
    (normalize_url ("https://a.com/x/?q=1#f".data) = "https://a.com/x?q=1".data) ∧
    ∀ u : List Char,
      ((urlsplit u).scheme = "http".data ∨ (urlsplit u).scheme = "https".data) →
      (urlsplit u).netloc ≠ [] →
      (urlsplit u).path.contains ';' = false →
      normalize_url (normalize_url u) = normalize_url u := by
  constructor
  · decide
  intro u hscheme hnet hsemi
  have hparse : urlparse u = urlsplit u := by
    unfold urlparse
    rw [if_neg (fun h => Bool.false_ne_true (hsemi ▸ h))]
  set r := urlsplit u with hr
  have hNd : ∀ c ∈ r.netloc, notNetlocDelim c = true := urlsplit_netloc_no_delim u
  have hclean := urlsplit_components_clean u
  have hPq : ∀ c ∈ r.path, c ≠ '?' := urlsplit_path_no_qmark u
  have hPh : ∀ c ∈ r.path, c ≠ '#' := urlsplit_path_no_hash u
  have hQh : ∀ c ∈ r.query, c ≠ '#' := urlsplit_query_no_hash u
  set P1 : List Char :=
    if rstripSlashes r.path = [] then ['/'] else rstripSlashes r.path with hP1
  have hP1head : P1.head? = some '/' := by
    rw [hP1]
    by_cases h0 : rstripSlashes r.path = []
    · rw [if_pos h0]
      rfl
    · rw [if_neg h0]
      rcases urlsplit_path_head u hnet with hnil | hhead
      · exact absurd (by rw [show r.path = [] from hnil]; rfl) h0
      · have hpre := rstripSlashes_isPrefix r.path
        have heq := head?_of_isPrefix_ne_nil hpre h0
        rw [← heq]
        exact hhead
  have hP1mem : ∀ c ∈ P1, c = '/' ∨ c ∈ r.path := by
    intro c hc
    rw [hP1] at hc
    by_cases h0 : rstripSlashes r.path = []
    · rw [if_pos h0] at hc
      rcases List.mem_cons.mp hc with rfl | h2
      · exact Or.inl rfl
      · cases h2
    · rw [if_neg h0] at hc
      exact Or.inr ((rstripSlashes_isPrefix r.path).subset hc)
  have hP1q : ∀ c ∈ P1, c ≠ '?' := fun c hc => by
    rcases hP1mem c hc with rfl | h2
    · decide
    · exact hPq c h2
  have hP1h : ∀ c ∈ P1, c ≠ '#' := fun c hc => by
    rcases hP1mem c hc with rfl | h2
    · decide
    · exact hPh c h2
  have hP1c : ∀ c ∈ P1, isUnsafeUrlByte c = false := fun c hc => by
    rcases hP1mem c hc with rfl | h2
    · decide
    · exact hclean.2.1 c h2
  have hP1semi : P1.contains ';' = false := by
    apply contains_eq_false_of_not_mem
    intro hmem
    rcases hP1mem ';' hmem with heq | h2
    · exact absurd heq (by decide)
    · exact ne_of_not_contains h2 (fun hx => Bool.false_ne_true (hsemi ▸ hx)) rfl
  have hnu : normalize_url u =
      r.scheme ++ ':' :: '/' :: '/' ::
        (r.netloc ++ (P1 ++ if r.query = [] then [] else '?' :: r.query)) := by
    unfold normalize_url
    rw [hparse]
    dsimp only
    rw [← hP1]
    by_cases hq0 : r.query = []
    · rw [if_neg (fun h => h hq0), if_pos hq0, List.append_nil]
      simp [List.cons_append, List.append_assoc]
    · rw [if_pos hq0, if_neg hq0]
      simp [List.cons_append, List.append_assoc]
  have hscheme2 : r.scheme = ['h', 't', 't', 'p'] ∨ r.scheme = ['h', 't', 't', 'p', 's'] := by
    rcases hscheme with h | h
    · exact Or.inl (h.trans (by rfl))
    · exact Or.inr (h.trans (by rfl))
  have hsplit2 : urlsplit (normalize_url u) = ⟨r.scheme, r.netloc, P1, [], r.query, []⟩ := by
    rw [hnu]
    exact urlsplit_reconstruct r.scheme r.netloc P1 r.query hscheme2 hNd hclean.1
      hP1head hP1q hP1h hP1c hQh hclean.2.2
  have hparse2 : urlparse (normalize_url u) = ⟨r.scheme, r.netloc, P1, [], r.query, []⟩ := by
    unfold urlparse
    rw [hsplit2]
    dsimp only
    rw [if_neg (fun h => Bool.false_ne_true (hP1semi ▸ h))]
  obtain ⟨v, hv⟩ : ∃ v, normalize_url u = v := ⟨_, rfl⟩
  rw [hv] at hparse2 ⊢
  unfold normalize_url
  rw [hparse2]
  dsimp only
  have hP1fix : (if rstripSlashes P1 = [] then ['/'] else rstripSlashes P1) = P1 := by
    rw [hP1]
    by_cases h0 : rstripSlashes r.path = []
    · rw [if_pos h0]
      decide
    · rw [if_neg h0, rstripSlashes_idem, if_neg h0]
  rw [hP1fix, ← hv, hnu]
  by_cases hq0 : r.query = []
  · rw [if_neg (fun h => h hq0), if_pos hq0, List.append_nil]
    simp [List.cons_append, List.append_assoc]
  · rw [if_pos hq0, if_neg hq0]
    simp [List.cons_append, List.append_assoc]

/-- C4 witness: the idempotence part applied at the concrete URL
`https://b.org/a/b/?x=2`. -/
theorem normalize_url_strip_and_idempotent_witness :
    normalize_url (normalize_url ("https://b.org/a/b/?x=2".data)) =
      normalize_url ("https://b.org/a/b/?x=2".data) :=
  normalize_url_strip_and_idempotent.2 ("https://b.org/a/b/?x=2".data)
    (Or.inr (by decide)) (by decide) (by decide)

end Sponge
